import Mathlib

/-!
# GeoSpatialScan: polygon range search

A shallow embedding of `src/src/RangeSearch.cpp` (with `Point.h`, `RangeSearch.h`).

Modelling conventions.

* A `double` coordinate is the rational number it denotes. The arithmetic of
  `pointinsidepoly` is embedded twice: `edgeCrossed` and `pointinsidepoly` evaluate the
  intercept over exact arithmetic (`ℚ`), for the properties stated "over exact arithmetic";
  `edgeCrossedF` and `pointinsidepolyF` evaluate it in IEEE-754 binary64 arithmetic (`Dbl`,
  `roundDouble`), as the compiled program does. Comparisons, `std::min` and `std::max` of
  doubles are exact in both.
* `std::vector<Point>` is `List Point`; `v[i]` is `v.getD i default`.
* `int` loop counters and `pointCount` are natural numbers (a `std::vector` of fewer than
  `2^31` points is assumed, so no counter wraps).
* `for (int i = 0; i < n; ++i)` is a left fold over `List.range n`, the loop-carried
  variables being the fold state.
* `ANNpoint` (an array of two doubles) is a `Point`; `ANNpointArray` is `List Point`.
* For the properties on errors and on the engine state the two queries are also embedded as
  state transformers on `QueryFrame` (data members and locals), see `RangeSearch.runQueryPoly`.
-/

/-- The class `Point` of `Point.h`: two public `double` members. -/
structure Point where
  x : ℚ
  y : ℚ
deriving DecidableEq, Inhabited

/-- The constant `DBL_MAX` of `<cfloat>` for IEEE-754 binary64: `(2 - 2^-52) * 2^1023`. -/
def DBL_MAX : ℚ := (2 ^ 53 - 1) * 2 ^ 971

/-- The data members of `class RangeSearch` (`RangeSearch.h`). The kd-tree of the ANN library
is represented by the point array it was built over. -/
structure RangeSearch where
  dataPts : List Point
  kdTree : List Point
  pointCount : Nat
deriving DecidableEq

/-- The constructor `RangeSearch::RangeSearch(points)`: `pointCount = points.size()`, every
point is copied into `dataPts`, and the kd-tree is created over `dataPts`. -/
def RangeSearch.ctor (points : List Point) : RangeSearch :=
  let pointCount := points.length
  let dataPts := (List.range pointCount).map (fun i => points.getD i default)
  { dataPts := dataPts, kdTree := dataPts, pointCount := pointCount }

/-- The four loop-carried locals `minX, maxX, minY, maxY` of `calboundingbox`. -/
structure BoxAcc where
  minX : ℚ
  maxX : ℚ
  minY : ℚ
  maxY : ℚ
deriving DecidableEq

/-- One iteration of the range-for loop of `calboundingbox`. -/
def BoxAcc.step (a : BoxAcc) (p : Point) : BoxAcc :=
  { minX := min a.minX p.x, maxX := max a.maxX p.x,
    minY := min a.minY p.y, maxY := max a.maxY p.y }

/-- Embedding of `RangeSearch::calboundingbox`: returns the pair `(minPt, maxPt)` written through the two
output parameters. -/
def calboundingbox (polygon : List Point) : Point × Point :=
  let a := polygon.foldl BoxAcc.step
    { minX := DBL_MAX, maxX := -DBL_MAX, minY := DBL_MAX, maxY := -DBL_MAX }
  (⟨a.minX, a.minY⟩, ⟨a.maxX, a.maxY⟩)

/-- Embedding of `RangeSearch::pointinsidebox`: the inclusive box test. -/
def pointinsidebox (pt bbMin bbMax : Point) : Bool :=
  decide (pt.x ≥ bbMin.x) && decide (pt.x ≤ bbMax.x) &&
    decide (pt.y ≥ bbMin.y) && decide (pt.y ≤ bbMax.y)

/-- The condition of the `if` inside the loop of `pointinsidepoly` over exact arithmetic,
with `vi = polygon[i]` and `vj = polygon[j]`; `&&` short-circuits, so the quotient is only
evaluated when the first conjunct holds. The binary64 evaluation is `edgeCrossedF`. -/
def edgeCrossed (pt vi vj : Point) : Bool :=
  (decide (vi.y > pt.y) != decide (vj.y > pt.y)) &&
    decide (pt.x < (vj.x - vi.x) * (pt.y - vi.y) / (vj.y - vi.y) + vi.x)

/-- Embedding of `RangeSearch::pointinsidepoly` over exact arithmetic: the loop
`for (i = 0, j = count - 1; i < count; j = i++)` with state `(j, inside)`. The binary64
evaluation is `pointinsidepolyF`. -/
def pointinsidepoly (pt : Point) (polygon : List Point) : Bool :=
  let count := polygon.length
  ((List.range count).foldl
    (fun (s : Nat × Bool) (i : Nat) =>
      (i, if edgeCrossed pt (polygon.getD i default) (polygon.getD s.1 default)
          then !s.2 else s.2))
    (count - 1, false)).2

/-- Embedding of `RangeSearch::queryPoly`: the loop over `i = 0 .. pointCount - 1` with state `result`. -/
def RangeSearch.queryPoly (self : RangeSearch) (polygon : List Point) : List Nat :=
  let bb := calboundingbox polygon
  let minPt := bb.1
  let maxPt := bb.2
  (List.range self.pointCount).foldl
    (fun (result : List Nat) (i : Nat) =>
      let queryPt := self.dataPts.getD i default
      if queryPt.x ≥ minPt.x ∧ queryPt.x ≤ maxPt.x ∧
          queryPt.y ≥ minPt.y ∧ queryPt.y ≤ maxPt.y then
        if pointinsidepoly queryPt polygon then result ++ [i] else result
      else result)
    []

/-- Embedding of `RangeSearch::queryPolyCount`. The array `nnIdx` is allocated and never written, so the
value read as `nnIdx[0]` is arbitrary: it is the parameter `nnIdx0`. Reading
`dataPts[nnIdx0]` outside `0 .. pointCount - 1` is undefined behaviour, modelled as `none`. -/
def RangeSearch.queryPolyCount (self : RangeSearch) (nnIdx0 : Int) (polygon : List Point) :
    Option Nat :=
  let bb := calboundingbox polygon
  let minPt := bb.1
  let maxPt := bb.2
  (List.range self.pointCount).foldl
    (fun (count : Option Nat) (i : Nat) =>
      count.bind fun c =>
        let queryPt := self.dataPts.getD i default
        if pointinsidebox queryPt minPt maxPt then
          if 0 ≤ nnIdx0 ∧ nnIdx0 < (self.pointCount : Int) then
            let pt := self.dataPts.getD nnIdx0.toNat default
            if pointinsidepoly pt polygon then some (c + 1) else some c
          else none
        else some c)
    (some 0)

/-- How a call of a C++ member function ends: a normal return with a value, or an
exception leaving the function. -/
inductive Outcome (α : Type) where
  | returned (value : α)
  | thrown
deriving DecidableEq

/-! ## The two queries as state transformers -/

/-- The state while `queryPoly` or `queryPolyCount` runs: the data members of the engine
(`dataPts`, `kdTree`, `pointCount`) and the locals of the member function (`minPt`, `maxPt`,
`queryPt`, and `result` or `count`). The locals `nnIdx` and `dists` are never written and
are left out. -/
structure QueryFrame where
  dataPts : List Point
  kdTree : List Point
  pointCount : Nat
  minPt : Point
  maxPt : Point
  queryPt : Point
  result : List Nat
  count : Nat

/-- The state on entry of a query: the members are those of the engine, `result` is empty and
`count` is 0. The points returned by `annAllocPt` are written before they are read. -/
def QueryFrame.enter (self : RangeSearch) : QueryFrame :=
  { dataPts := self.dataPts, kdTree := self.kdTree, pointCount := self.pointCount,
    minPt := default, maxPt := default, queryPt := default, result := [], count := 0 }

/-- The engine left behind by a query: the data members of the final state. -/
def QueryFrame.engine (st : QueryFrame) : RangeSearch :=
  { dataPts := st.dataPts, kdTree := st.kdTree, pointCount := st.pointCount }

/-- One iteration of the loop of `queryPoly` (lines 148-159) on the state: the two
assignments to `queryPt`, the inline box test and the polygon test followed by `push_back`.
The polygon test `inside` is a parameter: it is `pointinsidepoly` over exact arithmetic and
`pointinsidepolyF` in binary64 arithmetic. -/
def queryPolyStep (inside : Point → List Point → Bool) (polygon : List Point)
    (st : QueryFrame) (i : Nat) : QueryFrame :=
  let st1 := { st with queryPt := ⟨(st.dataPts.getD i default).x, st.queryPt.y⟩ }
  let st2 := { st1 with queryPt := ⟨st1.queryPt.x, (st1.dataPts.getD i default).y⟩ }
  if st2.queryPt.x ≥ st2.minPt.x ∧ st2.queryPt.x ≤ st2.maxPt.x ∧
      st2.queryPt.y ≥ st2.minPt.y ∧ st2.queryPt.y ≤ st2.maxPt.y then
    if inside ⟨st2.queryPt.x, st2.queryPt.y⟩ polygon then
      { st2 with result := st2.result ++ [i] }
    else st2
  else st2

/-- The body of `RangeSearch::queryPoly` as a state transformer: `calboundingbox` writes
`minPt` and `maxPt`, then the loop runs over `i = 0 .. pointCount - 1`. -/
def RangeSearch.runQueryPoly (inside : Point → List Point → Bool) (self : RangeSearch)
    (polygon : List Point) : QueryFrame :=
  let st := QueryFrame.enter self
  let bb := calboundingbox polygon
  let st := { st with minPt := bb.1, maxPt := bb.2 }
  (List.range st.pointCount).foldl (queryPolyStep inside polygon) st

/-- A call of `queryPoly` as seen by the caller: how it ends, with the returned `result`, and
the engine afterwards. The body has no `throw` statement and no test on the number of
vertices. -/
def RangeSearch.callQueryPolyWith (inside : Point → List Point → Bool) (self : RangeSearch)
    (polygon : List Point) : Outcome (List Nat) × RangeSearch :=
  let st := self.runQueryPoly inside polygon
  (Outcome.returned st.result, st.engine)

/-- One iteration of the loop of `queryPolyCount` (lines 110-120) on the state; `none` when
`dataPts[nnIdx[0]]` is read out of bounds. -/
def queryPolyCountStep (inside : Point → List Point → Bool) (nnIdx0 : Int)
    (polygon : List Point) (st : QueryFrame) (i : Nat) : Option QueryFrame :=
  let st1 := { st with queryPt := ⟨(st.dataPts.getD i default).x, st.queryPt.y⟩ }
  let st2 := { st1 with queryPt := ⟨st1.queryPt.x, (st1.dataPts.getD i default).y⟩ }
  if pointinsidebox ⟨st2.queryPt.x, st2.queryPt.y⟩ ⟨st2.minPt.x, st2.minPt.y⟩
      ⟨st2.maxPt.x, st2.maxPt.y⟩ then
    if 0 ≤ nnIdx0 ∧ nnIdx0 < (st2.pointCount : Int) then
      if inside (st2.dataPts.getD nnIdx0.toNat default) polygon then
        some { st2 with count := st2.count + 1 }
      else some st2
    else none
  else some st2

/-- The body of `RangeSearch::queryPolyCount` as a state transformer; `none` when it has
undefined behaviour. -/
def RangeSearch.runQueryPolyCount (inside : Point → List Point → Bool) (self : RangeSearch)
    (nnIdx0 : Int) (polygon : List Point) : Option QueryFrame :=
  let st := QueryFrame.enter self
  let bb := calboundingbox polygon
  let st := { st with minPt := bb.1, maxPt := bb.2 }
  (List.range st.pointCount).foldl
    (fun (s : Option QueryFrame) (i : Nat) =>
      s.bind fun st => queryPolyCountStep inside nnIdx0 polygon st i)
    (some st)

/-- A call of `queryPolyCount` as seen by the caller; `none` when the body has undefined
behaviour. The body has no `throw` statement. -/
def RangeSearch.callQueryPolyCountWith (inside : Point → List Point → Bool)
    (self : RangeSearch) (nnIdx0 : Int) (polygon : List Point) :
    Option (Outcome Nat × RangeSearch) :=
  (self.runQueryPolyCount inside nnIdx0 polygon).map
    (fun st => (Outcome.returned st.count, st.engine))

/-- A call of `queryPoly` over exact arithmetic. -/
def RangeSearch.callQueryPoly (self : RangeSearch) (polygon : List Point) :
    Outcome (List Nat) × RangeSearch :=
  self.callQueryPolyWith pointinsidepoly polygon

/-- A call of `queryPolyCount` over exact arithmetic. -/
def RangeSearch.callQueryPolyCount (self : RangeSearch) (nnIdx0 : Int)
    (polygon : List Point) : Option (Outcome Nat × RangeSearch) :=
  self.callQueryPolyCountWith pointinsidepoly nnIdx0 polygon

/-! ## Instrumented embeddings: hazards, visited points, construction -/

/-- The element `polygon[k]` for a C++ `int` index `k`: `none` outside `0 .. size - 1`. -/
def vertexAt (polygon : List Point) (k : Int) : Option Point :=
  if 0 ≤ k then polygon[k.toNat]? else none

/-- The condition of the `if` inside the loop of `pointinsidepoly` with its hazard made
explicit: `&&` evaluates the quotient only when the first conjunct holds, and the result is
`none` when the quotient is then evaluated with the divisor `vj.y - vi.y` equal to zero. -/
def edgeCrossedChecked (pt vi vj : Point) : Option Bool :=
  if (decide (vi.y > pt.y) != decide (vj.y > pt.y)) = true then
    if vj.y - vi.y = 0 then none
    else some (decide (pt.x < (vj.x - vi.x) * (pt.y - vi.y) / (vj.y - vi.y) + vi.x))
  else some false

/-- The loop of `pointinsidepoly` with its hazards made explicit. The state is
`(j, inside, n)` with `j` a C++ `int` starting at `count - 1` and `n` the number of times the
loop body has been entered; the result is `none` when `polygon[i]` or `polygon[j]` is read
outside `0 .. count - 1` or the quotient is evaluated with a zero divisor. -/
def pointinsidepolyChecked (pt : Point) (polygon : List Point) : Option (Bool × Nat) :=
  let count := polygon.length
  ((List.range count).foldl
    (fun (s : Option (Int × Bool × Nat)) (i : Nat) =>
      s.bind fun st =>
        match vertexAt polygon (i : Int), vertexAt polygon st.1 with
        | some vi, some vj =>
          (edgeCrossedChecked pt vi vj).map fun c =>
            ((i : Int), (if c then !st.2.1 else st.2.1), st.2.2 + 1)
        | _, _ => none)
    (some ((count : Int) - 1, false, 0))).map (fun st => (st.2.1, st.2.2))

/-- Embedding of `RangeSearch::queryPoly` instrumented with the list of the indices `i` whose
point `dataPts[i]` the loop reads: the first component is `result`, the second the visited
indices. The body never reads the member `kdTree`. -/
def RangeSearch.queryPolyVisited (self : RangeSearch) (polygon : List Point) :
    List Nat × List Nat :=
  let bb := calboundingbox polygon
  let minPt := bb.1
  let maxPt := bb.2
  (List.range self.pointCount).foldl
    (fun (st : List Nat × List Nat) (i : Nat) =>
      let queryPt := self.dataPts.getD i default
      (if queryPt.x ≥ minPt.x ∧ queryPt.x ≤ maxPt.x ∧
          queryPt.y ≥ minPt.y ∧ queryPt.y ≤ maxPt.y then
        if pointinsidepoly queryPt polygon then st.1 ++ [i] else st.1
      else st.1, st.2 ++ [i]))
    ([], [])

/-- The constructor call as seen by the caller. The ANN library is not part of the
repository: `ann n` is how its two calls `annAllocPts(n, 2)` and `new ANNkd_tree(dataPts, n, 2)`
end for `n` points. The constructor body itself has no `throw` statement and no test on
`points.size()`. -/
def RangeSearch.construct (ann : Nat → Outcome Unit) (points : List Point) :
    Outcome RangeSearch :=
  match ann points.length with
  | Outcome.returned _ => Outcome.returned (RangeSearch.ctor points)
  | Outcome.thrown => Outcome.thrown

/-! ## IEEE-754 binary64 arithmetic -/

/-- A value of the C++ type `double` (IEEE-754 binary64): a finite value, given by the
rational number it denotes, one of the two infinities, or a NaN. The sign of a zero is not
represented: it can only be observed through a division by zero, and the only divisor in
`pointinsidepoly` is the difference of two distinct doubles, which is never zero
(`Dbl.sub_ne_zero`). -/
inductive Dbl where
  | fin (q : ℚ)
  | pinf
  | ninf
  | nan
deriving DecidableEq

/-- Rounding of a rational to the nearest integer, ties to the even integer. -/
def roundHalfEven (x : ℚ) : ℤ :=
  if x - ⌊x⌋ < 1 / 2 then ⌊x⌋
  else if 1 / 2 < x - ⌊x⌋ then ⌊x⌋ + 1
  else if ⌊x⌋ % 2 = 0 then ⌊x⌋ else ⌊x⌋ + 1

/-- The exponent of the unit in the last place of the binary64 format around `q`: with
`2^e ≤ |q| < 2^(e+1)` it is `e - 52` (53 significant bits), and never less than `-1074`
(subnormal numbers). -/
def quantumExp (q : ℚ) : ℤ :=
  max (Int.log 2 |q| - 52) (-1074)

/-- The default IEEE-754 rounding (to nearest, ties to even) of an exact result to binary64.
A result of magnitude at least `2^1024 - 2^970` (half an ulp above `DBL_MAX`) overflows to
an infinity. -/
def roundDouble (q : ℚ) : Dbl :=
  if 2 ^ 1024 - 2 ^ 970 ≤ q then Dbl.pinf
  else if q ≤ -(2 ^ 1024 - 2 ^ 970) then Dbl.ninf
  else Dbl.fin (roundHalfEven (q / 2 ^ quantumExp q) * 2 ^ quantumExp q)

/-- A rational number is a `double` when rounding leaves it unchanged. -/
def isDouble (q : ℚ) : Prop := roundDouble q = Dbl.fin q

instance isDouble.decidable (q : ℚ) : Decidable (isDouble q) :=
  inferInstanceAs (Decidable (roundDouble q = Dbl.fin q))

/-- Binary64 addition. -/
def Dbl.add : Dbl → Dbl → Dbl
  | Dbl.fin a, Dbl.fin b => roundDouble (a + b)
  | Dbl.fin _, Dbl.pinf => Dbl.pinf
  | Dbl.fin _, Dbl.ninf => Dbl.ninf
  | Dbl.pinf, Dbl.fin _ => Dbl.pinf
  | Dbl.ninf, Dbl.fin _ => Dbl.ninf
  | Dbl.pinf, Dbl.pinf => Dbl.pinf
  | Dbl.ninf, Dbl.ninf => Dbl.ninf
  | _, _ => Dbl.nan

/-- Binary64 negation. -/
def Dbl.neg : Dbl → Dbl
  | Dbl.fin a => Dbl.fin (-a)
  | Dbl.pinf => Dbl.ninf
  | Dbl.ninf => Dbl.pinf
  | Dbl.nan => Dbl.nan

/-- Binary64 subtraction. -/
def Dbl.sub (a b : Dbl) : Dbl := Dbl.add a (Dbl.neg b)

/-- The infinity of the given sign (`true` for negative). -/
def Dbl.infOfSign (negative : Bool) : Dbl := if negative then Dbl.ninf else Dbl.pinf

/-- Binary64 multiplication; zero times an infinity is a NaN. -/
def Dbl.mul : Dbl → Dbl → Dbl
  | Dbl.fin a, Dbl.fin b => roundDouble (a * b)
  | Dbl.fin a, Dbl.pinf => if a = 0 then Dbl.nan else Dbl.infOfSign (decide (a < 0))
  | Dbl.fin a, Dbl.ninf => if a = 0 then Dbl.nan else Dbl.infOfSign (decide (0 < a))
  | Dbl.pinf, Dbl.fin b => if b = 0 then Dbl.nan else Dbl.infOfSign (decide (b < 0))
  | Dbl.ninf, Dbl.fin b => if b = 0 then Dbl.nan else Dbl.infOfSign (decide (0 < b))
  | Dbl.pinf, Dbl.pinf => Dbl.pinf
  | Dbl.ninf, Dbl.ninf => Dbl.pinf
  | Dbl.pinf, Dbl.ninf => Dbl.ninf
  | Dbl.ninf, Dbl.pinf => Dbl.ninf
  | _, _ => Dbl.nan

/-- Binary64 division. A finite value divided by an infinity is a zero, an infinity divided
by an infinity is a NaN. The quotient by a zero, whose value depends on the sign of the zero,
is not represented (`nan`); it is never evaluated on doubles, see `Dbl`. -/
def Dbl.div : Dbl → Dbl → Dbl
  | Dbl.fin a, Dbl.fin b => if b = 0 then Dbl.nan else roundDouble (a / b)
  | Dbl.fin _, Dbl.pinf => Dbl.fin 0
  | Dbl.fin _, Dbl.ninf => Dbl.fin 0
  | Dbl.pinf, Dbl.fin b => Dbl.infOfSign (decide (b < 0))
  | Dbl.ninf, Dbl.fin b => Dbl.infOfSign (decide (0 ≤ b))
  | _, _ => Dbl.nan

/-- The comparison `a < b` on binary64: false when either side is a NaN. -/
def Dbl.lt : Dbl → Dbl → Bool
  | Dbl.fin a, Dbl.fin b => decide (a < b)
  | Dbl.fin _, Dbl.pinf => true
  | Dbl.ninf, Dbl.fin _ => true
  | Dbl.ninf, Dbl.pinf => true
  | _, _ => false

/-- The condition of the `if` inside the loop of `pointinsidepoly` in binary64 arithmetic:
every operation of `(vj.x - vi.x) * (pt.y - vi.y) / (vj.y - vi.y) + vi.x` rounds its result.
The comparisons of two doubles are exact. -/
def edgeCrossedF (pt vi vj : Point) : Bool :=
  (decide (vi.y > pt.y) != decide (vj.y > pt.y)) &&
    Dbl.lt (Dbl.fin pt.x)
      (Dbl.add
        (Dbl.div
          (Dbl.mul (Dbl.sub (Dbl.fin vj.x) (Dbl.fin vi.x)) (Dbl.sub (Dbl.fin pt.y) (Dbl.fin vi.y)))
          (Dbl.sub (Dbl.fin vj.y) (Dbl.fin vi.y)))
        (Dbl.fin vi.x))

/-- Embedding of `RangeSearch::pointinsidepoly` in binary64 arithmetic: the same loop as
`pointinsidepoly`, with the edge test evaluated on doubles. -/
def pointinsidepolyF (pt : Point) (polygon : List Point) : Bool :=
  let count := polygon.length
  ((List.range count).foldl
    (fun (s : Nat × Bool) (i : Nat) =>
      (i, if edgeCrossedF pt (polygon.getD i default) (polygon.getD s.1 default)
          then !s.2 else s.2))
    (count - 1, false)).2

/-! ## Reference definitions taken from the specification, and concrete inputs -/

/-- The brute-force reference of the specification: the ray-casting test applied to every
dataset point in index order, with no bounding box and no index. -/
def bruteForce (points polygon : List Point) : List Nat :=
  (List.range points.length).filter (fun i => pointinsidepoly (points.getD i default) polygon)

/-- The crossed edges in the words of the specification: the indices `i` in `0 .. m-1`, with
`j = i - 1` (and `j = m - 1` for `i = 0`), such that `v_i.y > p.y` differs from `v_j.y > p.y`
and `p.x` is less than the x-intercept
`(v_j.x - v_i.x) * (p.y - v_i.y) / (v_j.y - v_i.y) + v_i.x`. -/
def crossingIndices (p : Point) (P : List Point) : List Nat :=
  (List.range P.length).filter (fun i =>
    let j := if i = 0 then P.length - 1 else i - 1
    let vi := P.getD i default
    let vj := P.getD j default
    decide (¬(vi.y > p.y ↔ vj.y > p.y) ∧
      p.x < (vj.x - vi.x) * (p.y - vi.y) / (vj.y - vi.y) + vi.x))

/-- The L-shaped polygon `(0,0),(4,0),(4,2),(2,2),(2,4),(0,4)`. -/
def lShape : List Point := [⟨0, 0⟩, ⟨4, 0⟩, ⟨4, 2⟩, ⟨2, 2⟩, ⟨2, 4⟩, ⟨0, 4⟩]

/-- The square `(0,0),(4,0),(4,4),(0,4)` of concrete scenario 1. -/
def square4 : List Point := [⟨0, 0⟩, ⟨4, 0⟩, ⟨4, 4⟩, ⟨0, 4⟩]

/-- The square `(0,0),(100,0),(100,100),(0,100)` of concrete scenario 2. -/
def square100 : List Point := [⟨0, 0⟩, ⟨100, 0⟩, ⟨100, 100⟩, ⟨0, 100⟩]

/-- A triangle with exactly three vertices. -/
def triangle4 : List Point := [⟨0, 0⟩, ⟨4, 0⟩, ⟨0, 4⟩]

/-! ## Auxiliary definitions used in the proofs -/

/-- Structural form of the loop of `pointinsidepoly`: `prev` is `polygon[j]`, the list holds
the vertices still to be visited and the Boolean is `inside`. -/
def rayLoop (pt : Point) : Point → List Point → Bool → Bool
  | _, [], inside => inside
  | prev, v :: vs, inside =>
    rayLoop pt v vs (if edgeCrossed pt v prev then !inside else inside)

/-- Parity of the number of crossed edges along an open walk through the listed vertices. -/
def pathParity (pt : Point) : List Point → Bool
  | [] => false
  | [_] => false
  | a :: b :: rest => xor (edgeCrossed pt b a) (pathParity pt (b :: rest))

/-- The effect of one iteration of the loop of `queryPolyCount` on the counter alone, for
given data members and bounding box. -/
def countStep (inside : Point → List Point → Bool) (dataPts : List Point) (pointCount : Nat)
    (minPt maxPt : Point) (nnIdx0 : Int) (polygon : List Point) (count : Option Nat)
    (i : Nat) : Option Nat :=
  count.bind fun c =>
    if pointinsidebox (dataPts.getD i default) minPt maxPt then
      if 0 ≤ nnIdx0 ∧ nnIdx0 < (pointCount : Int) then
        if inside (dataPts.getD nnIdx0.toNat default) polygon then some (c + 1) else some c
      else none
    else some c

/-! ## Lemmas on the ray-casting loop -/

theorem rayLoop_fold (pt : Point) (suf : List Point) :
    ∀ (pre : List Point) (j : Nat) (b : Bool),
      ((List.range' pre.length suf.length).foldl
        (fun (s : Nat × Bool) (i : Nat) =>
          (i, if edgeCrossed pt ((pre ++ suf).getD i default) ((pre ++ suf).getD s.1 default)
              then !s.2 else s.2))
        (j, b)).2 = rayLoop pt ((pre ++ suf).getD j default) suf b := by
  induction suf with
  | nil => intro pre j b; simp [rayLoop]
  | cons v vs ih =>
    intro pre j b
    have h := ih (pre ++ [v]) pre.length
      (if edgeCrossed pt v ((pre ++ v :: vs).getD j default) then !b else b)
    simp only [List.append_assoc, List.singleton_append, List.length_append,
      List.length_singleton] at h
    simp only [List.length_cons, List.range', List.foldl_cons, rayLoop]
    have hv : (pre ++ v :: vs).getD pre.length default = v := by
      rw [List.getD_eq_getElem?_getD, List.getElem?_append_right (le_refl _)]
      simp
    rw [hv] at h ⊢
    exact h

theorem pointinsidepoly_eq_rayLoop (pt : Point) (polygon : List Point) :
    pointinsidepoly pt polygon
      = rayLoop pt (polygon.getD (polygon.length - 1) default) polygon false := by
  have h := rayLoop_fold pt polygon [] (polygon.length - 1) false
  simp only [List.length_nil, List.nil_append] at h
  simp only [pointinsidepoly, List.range_eq_range']
  exact h

/-! ## Lemmas on a single edge test -/

theorem edgeCrossed_iff (pt vi vj : Point) :
    edgeCrossed pt vi vj = true ↔
      ¬(pt.y < vi.y ↔ pt.y < vj.y) ∧
        pt.x < (vj.x - vi.x) * (pt.y - vi.y) / (vj.y - vi.y) + vi.x := by
  simp [edgeCrossed]

/-- On an edge whose end points straddle `pt.y` the x-intercept is not to the left of both
end points. -/
theorem intercept_ge (pt vi vj : Point) (hs : ¬(pt.y < vi.y ↔ pt.y < vj.y)) (m : ℚ)
    (hi : m ≤ vi.x) (hj : m ≤ vj.x) :
    m ≤ (vj.x - vi.x) * (pt.y - vi.y) / (vj.y - vi.y) + vi.x := by
  by_cases h1 : pt.y < vi.y
  · have h2 : vj.y ≤ pt.y := by
      by_contra hc
      exact hs ⟨fun _ => not_le.mp hc, fun _ => h1⟩
    have hd : vj.y - vi.y < 0 := by linarith
    have key : (vj.x - vi.x) * (pt.y - vi.y) ≤ (m - vi.x) * (vj.y - vi.y) := by
      nlinarith [mul_nonneg (sub_nonneg.mpr hi) (sub_nonneg.mpr h2),
        mul_nonneg (sub_nonneg.mpr hj) (sub_nonneg.mpr h1.le)]
    have := (le_div_iff_of_neg hd).mpr key
    linarith
  · have h1' : vi.y ≤ pt.y := not_lt.mp h1
    have h2 : pt.y < vj.y := by
      by_contra hc
      exact hs ⟨fun h => absurd h h1, fun h => absurd h hc⟩
    have hd : 0 < vj.y - vi.y := by linarith
    have key : (m - vi.x) * (vj.y - vi.y) ≤ (vj.x - vi.x) * (pt.y - vi.y) := by
      nlinarith [mul_nonneg (sub_nonneg.mpr hi) (sub_nonneg.mpr h2.le),
        mul_nonneg (sub_nonneg.mpr hj) (sub_nonneg.mpr h1')]
    have := (le_div_iff₀ hd).mpr key
    linarith

/-- On an edge whose end points straddle `pt.y` the x-intercept is not to the right of both
end points. -/
theorem intercept_le (pt vi vj : Point) (hs : ¬(pt.y < vi.y ↔ pt.y < vj.y)) (M : ℚ)
    (hi : vi.x ≤ M) (hj : vj.x ≤ M) :
    (vj.x - vi.x) * (pt.y - vi.y) / (vj.y - vi.y) + vi.x ≤ M := by
  by_cases h1 : pt.y < vi.y
  · have h2 : vj.y ≤ pt.y := by
      by_contra hc
      exact hs ⟨fun _ => not_le.mp hc, fun _ => h1⟩
    have hd : vj.y - vi.y < 0 := by linarith
    have key : (M - vi.x) * (vj.y - vi.y) ≤ (vj.x - vi.x) * (pt.y - vi.y) := by
      nlinarith [mul_nonneg (sub_nonneg.mpr hi) (sub_nonneg.mpr h2),
        mul_nonneg (sub_nonneg.mpr hj) (sub_nonneg.mpr h1.le)]
    have := (div_le_iff_of_neg hd).mpr key
    linarith
  · have h1' : vi.y ≤ pt.y := not_lt.mp h1
    have h2 : pt.y < vj.y := by
      by_contra hc
      exact hs ⟨fun h => absurd h h1, fun h => absurd h hc⟩
    have hd : 0 < vj.y - vi.y := by linarith
    have key : (vj.x - vi.x) * (pt.y - vi.y) ≤ (M - vi.x) * (vj.y - vi.y) := by
      nlinarith [mul_nonneg (sub_nonneg.mpr hi) (sub_nonneg.mpr h2.le),
        mul_nonneg (sub_nonneg.mpr hj) (sub_nonneg.mpr h1')]
    have := (div_le_iff₀ hd).mpr key
    linarith

/-- A crossed edge has an end point at or below `pt.y`, one strictly above, and one strictly
to the right of `pt.x`. -/
theorem edgeCrossed_bounds (pt vi vj : Point) (h : edgeCrossed pt vi vj = true) :
    (vi.y ≤ pt.y ∨ vj.y ≤ pt.y) ∧ (pt.y < vi.y ∨ pt.y < vj.y) ∧
      (pt.x < vi.x ∨ pt.x < vj.x) := by
  obtain ⟨hs, hx⟩ := (edgeCrossed_iff pt vi vj).mp h
  refine ⟨?_, ?_, ?_⟩
  · by_contra hc
    push_neg at hc
    exact hs ⟨fun _ => hc.2, fun _ => hc.1⟩
  · by_contra hc
    push_neg at hc
    exact hs ⟨fun h => absurd h (not_lt.mpr hc.1), fun h => absurd h (not_lt.mpr hc.2)⟩
  · by_contra hc
    push_neg at hc
    have := intercept_le pt vi vj hs pt.x hc.1 hc.2
    linarith

/-- When `pt` is strictly to the left of both end points, the edge is crossed exactly when
its end points straddle `pt.y`. -/
theorem edgeCrossed_of_left (pt vi vj : Point) (hi : pt.x < vi.x) (hj : pt.x < vj.x) :
    edgeCrossed pt vi vj = (decide (vi.y > pt.y) != decide (vj.y > pt.y)) := by
  by_cases hs : (pt.y < vi.y ↔ pt.y < vj.y)
  · simp [edgeCrossed, hs]
  · have hm := intercept_ge pt vi vj hs (min vi.x vj.x) (min_le_left _ _) (min_le_right _ _)
    have hx : pt.x < (vj.x - vi.x) * (pt.y - vi.y) / (vj.y - vi.y) + vi.x :=
      lt_of_lt_of_le (lt_min hi hj) hm
    simp [edgeCrossed, hs, hx]

/-! ## Consequences of a `true` answer of the ray-casting loop -/

/-- If the loop ends with `inside = true`, either it started so or some visited edge was
crossed. -/
theorem rayLoop_true_edge (pt : Point) (vs : List Point) :
    ∀ (prev : Point) (b : Bool), rayLoop pt prev vs b = true →
      b = true ∨ ∃ vi vj, vi ∈ prev :: vs ∧ vj ∈ prev :: vs ∧ edgeCrossed pt vi vj = true := by
  induction vs with
  | nil => intro prev b h; exact Or.inl (by simpa [rayLoop] using h)
  | cons v vs ih =>
    intro prev b h
    simp only [rayLoop] at h
    by_cases hc : edgeCrossed pt v prev = true
    · exact Or.inr ⟨v, prev, by simp, by simp, hc⟩
    · rw [if_neg hc] at h
      rcases ih v b h with hb | ⟨vi, vj, hi, hj, he⟩
      · exact Or.inl hb
      · exact Or.inr ⟨vi, vj, List.mem_cons_of_mem _ hi, List.mem_cons_of_mem _ hj, he⟩

/-- With `pt` strictly to the left of every vertex, the loop computes the parity of the
number of changes of `v.y > pt.y` along the visited vertices, which only depends on the
first and the last of them. -/
theorem rayLoop_of_left (pt : Point) (vs : List Point) :
    ∀ (prev : Point) (b : Bool), (∀ v ∈ prev :: vs, pt.x < v.x) →
      rayLoop pt prev vs b =
        xor b (xor (decide (prev.y > pt.y))
          (decide (((prev :: vs).getD vs.length default).y > pt.y))) := by
  induction vs with
  | nil => intro prev b _; simp [rayLoop]
  | cons v vs ih =>
    intro prev b h
    have hprev : pt.x < prev.x := h prev (by simp)
    have hv : pt.x < v.x := h v (by simp)
    have htail : ∀ w ∈ v :: vs, pt.x < w.x := fun w hw => h w (List.mem_cons_of_mem _ hw)
    simp only [rayLoop]
    rw [ih v _ htail, edgeCrossed_of_left pt v prev hv hprev]
    simp only [List.length_cons, List.getD_cons_succ]
    cases b <;> cases decide (prev.y > pt.y) <;> cases decide (v.y > pt.y) <;>
      cases decide (((v :: vs).getD vs.length default).y > pt.y) <;> rfl

/-- A point strictly to the left of every vertex is rejected: a closed vertex cycle has an
even number of edges straddling `pt.y`. -/
theorem pointinsidepoly_of_left (pt : Point) (polygon : List Point)
    (h : ∀ v ∈ polygon, pt.x < v.x) : pointinsidepoly pt polygon = false := by
  rw [pointinsidepoly_eq_rayLoop]
  cases polygon with
  | nil => simp [rayLoop]
  | cons v vs =>
    have hlast : (v :: vs).getD ((v :: vs).length - 1) default ∈ v :: vs := by
      simp only [List.length_cons, Nat.add_sub_cancel]
      rw [List.getD_eq_getElem _ _ (by simp)]
      exact List.getElem_mem _
    have hall : ∀ w ∈ (v :: vs).getD ((v :: vs).length - 1) default :: (v :: vs),
        pt.x < w.x := by
      intro w hw
      rcases List.mem_cons.mp hw with rfl | hw
      · exact h _ hlast
      · exact h w hw
    rw [rayLoop_of_left pt (v :: vs) _ false hall]
    simp only [List.length_cons, Nat.add_sub_cancel, List.getD_cons_succ]
    cases decide (((v :: vs).getD vs.length default).y > pt.y) <;> rfl

/-- An accepted point has a vertex weakly to its left, one strictly to its right, one at or
below its height and one strictly above: ray-casting acceptance implies membership in the
box spanned by the vertices, half-open to the right and to the top. -/
theorem pointinsidepoly_vertex_bounds (pt : Point) (polygon : List Point)
    (h : pointinsidepoly pt polygon = true) :
    (∃ a ∈ polygon, a.x ≤ pt.x) ∧ (∃ b ∈ polygon, pt.x < b.x) ∧
      (∃ c ∈ polygon, c.y ≤ pt.y) ∧ (∃ d ∈ polygon, pt.y < d.y) := by
  have hleft : ∃ a ∈ polygon, a.x ≤ pt.x := by
    by_contra hc
    push_neg at hc
    rw [pointinsidepoly_of_left pt polygon hc] at h
    exact Bool.false_ne_true h
  rw [pointinsidepoly_eq_rayLoop] at h
  cases polygon with
  | nil => simp [rayLoop] at h
  | cons v vs =>
    have hlast : (v :: vs).getD ((v :: vs).length - 1) default ∈ v :: vs := by
      simp only [List.length_cons, Nat.add_sub_cancel]
      rw [List.getD_eq_getElem _ _ (by simp)]
      exact List.getElem_mem _
    rcases rayLoop_true_edge pt (v :: vs) _ false h with hb | ⟨vi, vj, hi, hj, he⟩
    · exact absurd hb Bool.false_ne_true
    · have hi' : vi ∈ v :: vs := by
        rcases List.mem_cons.mp hi with rfl | hi
        · exact hlast
        · exact hi
      have hj' : vj ∈ v :: vs := by
        rcases List.mem_cons.mp hj with rfl | hj
        · exact hlast
        · exact hj
      obtain ⟨hlo, hhi, hx⟩ := edgeCrossed_bounds pt vi vj he
      refine ⟨hleft, ?_, ?_, ?_⟩
      · rcases hx with hx | hx
        · exact ⟨vi, hi', hx⟩
        · exact ⟨vj, hj', hx⟩
      · rcases hlo with hlo | hlo
        · exact ⟨vi, hi', hlo⟩
        · exact ⟨vj, hj', hlo⟩
      · rcases hhi with hhi | hhi
        · exact ⟨vi, hi', hhi⟩
        · exact ⟨vj, hj', hhi⟩

/-! ## Lemmas on the bounding box -/

theorem BoxAcc.foldl_step_mono (polygon : List Point) :
    ∀ a : BoxAcc,
      (polygon.foldl BoxAcc.step a).minX ≤ a.minX ∧ a.maxX ≤ (polygon.foldl BoxAcc.step a).maxX ∧
      (polygon.foldl BoxAcc.step a).minY ≤ a.minY ∧
      a.maxY ≤ (polygon.foldl BoxAcc.step a).maxY := by
  induction polygon with
  | nil => intro a; simp
  | cons p ps ih =>
    intro a
    obtain ⟨h1, h2, h3, h4⟩ := ih (a.step p)
    simp only [List.foldl_cons]
    exact ⟨h1.trans (min_le_left _ _), (le_max_left _ _).trans h2,
      h3.trans (min_le_left _ _), (le_max_left _ _).trans h4⟩

theorem BoxAcc.foldl_step_bounds (polygon : List Point) :
    ∀ (a : BoxAcc) (v : Point), v ∈ polygon →
      (polygon.foldl BoxAcc.step a).minX ≤ v.x ∧ v.x ≤ (polygon.foldl BoxAcc.step a).maxX ∧
      (polygon.foldl BoxAcc.step a).minY ≤ v.y ∧ v.y ≤ (polygon.foldl BoxAcc.step a).maxY := by
  induction polygon with
  | nil => intro a v hv; simp at hv
  | cons p ps ih =>
    intro a v hv
    simp only [List.foldl_cons]
    rcases List.mem_cons.mp hv with rfl | hv
    · obtain ⟨h1, h2, h3, h4⟩ := BoxAcc.foldl_step_mono ps (a.step v)
      exact ⟨h1.trans (min_le_right _ _), (le_max_right _ _).trans h2,
        h3.trans (min_le_right _ _), (le_max_right _ _).trans h4⟩
    · exact ih (a.step p) v hv

/-- The box computed by `calboundingbox` contains every vertex. -/
theorem calboundingbox_contains (polygon : List Point) (v : Point) (hv : v ∈ polygon) :
    (calboundingbox polygon).1.x ≤ v.x ∧ v.x ≤ (calboundingbox polygon).2.x ∧
      (calboundingbox polygon).1.y ≤ v.y ∧ v.y ≤ (calboundingbox polygon).2.y :=
  BoxAcc.foldl_step_bounds polygon _ v hv

/-- The inline box test of `queryPoly` is the test of `pointinsidebox`. -/
theorem pointinsidebox_iff (pt bbMin bbMax : Point) :
    pointinsidebox pt bbMin bbMax = true ↔
      pt.x ≥ bbMin.x ∧ pt.x ≤ bbMax.x ∧ pt.y ≥ bbMin.y ∧ pt.y ≤ bbMax.y := by
  simp [pointinsidebox, and_assoc]

/-- A point accepted by the ray-casting test passes the box test on the computed box. -/
theorem pointinsidebox_of_pointinsidepoly (pt : Point) (polygon : List Point)
    (h : pointinsidepoly pt polygon = true) :
    pointinsidebox pt (calboundingbox polygon).1 (calboundingbox polygon).2 = true := by
  obtain ⟨⟨a, ha, hax⟩, ⟨b, hb, hbx⟩, ⟨c, hc, hcy⟩, ⟨d, hd, hdy⟩⟩ :=
    pointinsidepoly_vertex_bounds pt polygon h
  rw [pointinsidebox_iff]
  exact ⟨(calboundingbox_contains polygon a ha).1.trans hax,
    hbx.le.trans (calboundingbox_contains polygon b hb).2.1,
    (calboundingbox_contains polygon c hc).2.2.1.trans hcy,
    hdy.le.trans (calboundingbox_contains polygon d hd).2.2.2⟩

/-! ## Lemmas on the constructor and the two query loops -/

theorem RangeSearch.ctor_dataPts (points : List Point) :
    (RangeSearch.ctor points).dataPts = points := by
  simp only [RangeSearch.ctor]
  apply List.ext_getElem
  · simp
  · intro i h1 h2
    simp [List.getD_eq_getElem?_getD, List.getElem?_eq_getElem h2]

theorem RangeSearch.ctor_pointCount (points : List Point) :
    (RangeSearch.ctor points).pointCount = points.length := rfl

theorem foldl_push_eq_filter (c : Nat → Bool) (l : List Nat) :
    ∀ acc : List Nat,
      l.foldl (fun (result : List Nat) (i : Nat) => if c i then result ++ [i] else result) acc
        = acc ++ l.filter c := by
  induction l with
  | nil => intro acc; simp
  | cons i l ih =>
    intro acc
    simp only [List.foldl_cons, List.filter_cons]
    by_cases h : c i = true
    · simp [h, ih]
    · simp [h, ih]

/-- The loop of `queryPoly` keeps, in increasing order, the indices passing both tests. -/
theorem RangeSearch.queryPoly_eq_filter (self : RangeSearch) (polygon : List Point) :
    self.queryPoly polygon = (List.range self.pointCount).filter (fun i =>
      pointinsidebox (self.dataPts.getD i default) (calboundingbox polygon).1
          (calboundingbox polygon).2 &&
        pointinsidepoly (self.dataPts.getD i default) polygon) := by
  have h := foldl_push_eq_filter (fun i =>
      pointinsidebox (self.dataPts.getD i default) (calboundingbox polygon).1
          (calboundingbox polygon).2 &&
        pointinsidepoly (self.dataPts.getD i default) polygon) (List.range self.pointCount) []
  rw [List.nil_append] at h
  rw [← h]
  simp only [RangeSearch.queryPoly]
  congr 1
  funext result i
  by_cases hb : pointinsidebox (self.dataPts.getD i default) (calboundingbox polygon).1
      (calboundingbox polygon).2 = true
  · have hb' := (pointinsidebox_iff _ _ _).mp hb
    rw [if_pos hb', hb, Bool.true_and]
  · have hb' := fun hh => hb ((pointinsidebox_iff _ _ _).mpr hh)
    have hbf := Bool.eq_false_iff.mpr hb
    rw [if_neg hb', hbf, Bool.false_and, if_neg Bool.false_ne_true]

/-- The box pre-filter of `queryPoly` is redundant: the result is the list of indices passing
the ray-casting test. -/
theorem RangeSearch.queryPoly_eq_filter_poly (self : RangeSearch) (polygon : List Point) :
    self.queryPoly polygon = (List.range self.pointCount).filter (fun i =>
      pointinsidepoly (self.dataPts.getD i default) polygon) := by
  rw [RangeSearch.queryPoly_eq_filter]
  apply List.filter_congr
  intro i _
  by_cases hp : pointinsidepoly (self.dataPts.getD i default) polygon = true
  · rw [hp, pointinsidebox_of_pointinsidepoly _ _ hp, Bool.true_and]
  · rw [Bool.eq_false_iff.mpr hp, Bool.and_false]

/-- General form of the loop of `queryPolyCount`: `box i` is the box test on `dataPts[i]`,
`valid` says that `nnIdx[0]` is a valid index and `pk` is the ray-casting test on
`dataPts[nnIdx[0]]`. -/
theorem foldl_countStep (box : Nat → Bool) (valid : Prop) [Decidable valid] (pk : Bool)
    (l : List Nat) :
    ∀ count : Option Nat,
      l.foldl
        (fun (count : Option Nat) (i : Nat) =>
          count.bind fun c =>
            if box i then
              if valid then
                if pk then some (c + 1) else some c
              else none
            else some c)
        count
      = count.bind fun c =>
          if l.filter box = [] then some c
          else if valid then
            if pk then some (c + (l.filter box).length) else some c
          else none := by
  induction l with
  | nil => intro count; cases count <;> simp
  | cons i l ih =>
    intro count
    rw [List.foldl_cons, ih]
    cases count with
    | none => rfl
    | some c =>
      by_cases hb : box i = true
      · by_cases hv : valid
        · cases pk
          · simp [hb, hv]
          · by_cases he : l.filter box = []
            · simp [hb, hv, he]
            · simp [hb, hv, he]; omega
        · simp [hb, hv]
      · simp [hb]

/-- The value computed by `queryPolyCount`. -/
theorem RangeSearch.queryPolyCount_eq (self : RangeSearch) (nnIdx0 : Int)
    (polygon : List Point) :
    self.queryPolyCount nnIdx0 polygon
      = if (List.range self.pointCount).filter (fun i =>
            pointinsidebox (self.dataPts.getD i default) (calboundingbox polygon).1
              (calboundingbox polygon).2) = [] then some 0
        else if 0 ≤ nnIdx0 ∧ nnIdx0 < (self.pointCount : Int) then
          if pointinsidepoly (self.dataPts.getD nnIdx0.toNat default) polygon then
            some ((List.range self.pointCount).filter (fun i =>
              pointinsidebox (self.dataPts.getD i default) (calboundingbox polygon).1
                (calboundingbox polygon).2)).length
          else some 0
        else none := by
  have h := foldl_countStep (fun i =>
      pointinsidebox (self.dataPts.getD i default) (calboundingbox polygon).1
        (calboundingbox polygon).2) (0 ≤ nnIdx0 ∧ nnIdx0 < (self.pointCount : Int))
    (pointinsidepoly (self.dataPts.getD nnIdx0.toNat default) polygon)
    (List.range self.pointCount) (some 0)
  simp only [Option.some_bind, Nat.zero_add] at h
  exact h

/-! ## Evaluation on the L-shaped polygon -/

theorem calboundingbox_lShape : calboundingbox lShape = (⟨0, 0⟩, ⟨4, 4⟩) := by
  norm_num [calboundingbox, lShape, BoxAcc.step, DBL_MAX, min_def, max_def]

theorem pointinsidepoly_lShape_inner : pointinsidepoly ⟨1, 1⟩ lShape = true := by
  simp [pointinsidepoly_eq_rayLoop, lShape, rayLoop, edgeCrossed]

theorem pointinsidepoly_lShape_notch (pt : Point) (hx : 2 < pt.x) (hy : 2 < pt.y) :
    pointinsidepoly pt lShape = false := by
  have h0 : ¬ pt.y < 0 := by linarith
  have h2 : ¬ pt.y < 2 := by linarith
  have hx2 : ¬ pt.x < 2 := by linarith
  have hx0 : ¬ pt.x < 0 := by linarith
  simp [pointinsidepoly_eq_rayLoop, lShape, rayLoop, edgeCrossed, h0, h2, hx2, hx0]

theorem queryPoly_lShape_two :
    (RangeSearch.ctor [⟨1, 1⟩, ⟨3, 3⟩]).queryPoly lShape = [0] := by
  have h33 : pointinsidepoly ⟨3, 3⟩ lShape = false :=
    pointinsidepoly_lShape_notch ⟨3, 3⟩ (by norm_num) (by norm_num)
  rw [RangeSearch.queryPoly_eq_filter_poly]
  simp [RangeSearch.ctor_dataPts, RangeSearch.ctor_pointCount, List.range, List.range.loop,
    List.filter, pointinsidepoly_lShape_inner, h33]

theorem queryPolyCount_lShape_two (k : Int) :
    (RangeSearch.ctor [⟨1, 1⟩, ⟨3, 3⟩]).queryPolyCount k lShape
      = if k = 0 then some 2 else if k = 1 then some 0 else none := by
  have h33 : pointinsidepoly ⟨3, 3⟩ lShape = false :=
    pointinsidepoly_lShape_notch ⟨3, 3⟩ (by norm_num) (by norm_num)
  have hbox : (List.range 2).filter (fun i =>
      pointinsidebox (([⟨1, 1⟩, ⟨3, 3⟩] : List Point).getD i default) (calboundingbox lShape).1
        (calboundingbox lShape).2) = [0, 1] := by
    norm_num [List.range, List.range.loop, List.filter, calboundingbox_lShape, pointinsidebox]
  rw [RangeSearch.queryPolyCount_eq, RangeSearch.ctor_dataPts, RangeSearch.ctor_pointCount]
  simp only [List.length_cons, List.length_nil, Nat.zero_add, Nat.reduceAdd, hbox]
  by_cases h0 : k = 0
  · subst h0
    simp [pointinsidepoly_lShape_inner]
  · by_cases h1 : k = 1
    · subst h1
      simp [h33]
    · have hk : ¬(0 ≤ k ∧ k < ((2 : Nat) : Int)) := by omega
      rw [if_neg hk, if_neg h0, if_neg h1]
      simp

/-! ## Evaluation on axis-aligned rectangles -/

/-- Ray-casting on the axis-aligned rectangle `(a,c),(b,c),(b,d),(a,d)` with `a < b` and
`c < d`: the accepted points are those of the half-open box `[a,b) × [c,d)`. -/
theorem pointinsidepoly_rectangle (a b c d : ℚ) (hab : a < b) (hcd : c < d) (pt : Point) :
    pointinsidepoly pt [⟨a, c⟩, ⟨b, c⟩, ⟨b, d⟩, ⟨a, d⟩] = true ↔
      (a ≤ pt.x ∧ pt.x < b ∧ c ≤ pt.y ∧ pt.y < d) := by
  have hdc : d - c ≠ 0 := by intro h; linarith
  have hcd' : c - d ≠ 0 := by intro h; linarith
  by_cases h1 : pt.y < c
  · have h2 : pt.y < d := by linarith
    have h3 : ¬ c ≤ pt.y := by linarith
    simp [pointinsidepoly_eq_rayLoop, rayLoop, edgeCrossed, h1, h2, h3]
  · by_cases h2 : pt.y < d
    · have h3 : c ≤ pt.y := by linarith
      simp [pointinsidepoly_eq_rayLoop, rayLoop, edgeCrossed, h1, h2, h3]
      split_ifs with hx
      · simp [hx]
      · constructor
        · intro h
          exact absurd h (by linarith)
        · intro h
          exact absurd h.2 hx
    · have h3 : c ≤ pt.y := by linarith
      simp [pointinsidepoly_eq_rayLoop, rayLoop, edgeCrossed, h1, h2, h3]

theorem calboundingbox_triangle4 : calboundingbox triangle4 = (⟨0, 0⟩, ⟨4, 4⟩) := by
  norm_num [calboundingbox, triangle4, BoxAcc.step, DBL_MAX, min_def, max_def]

/-! ## Short polygons and the crossing count -/

theorem edgeCrossed_comm (pt a b : Point) : edgeCrossed pt a b = edgeCrossed pt b a := by
  rw [Bool.eq_iff_iff, edgeCrossed_iff, edgeCrossed_iff]
  have key : ¬(pt.y < a.y ↔ pt.y < b.y) →
      (b.x - a.x) * (pt.y - a.y) / (b.y - a.y) + a.x
        = (a.x - b.x) * (pt.y - b.y) / (a.y - b.y) + b.x := by
    intro hs
    have hne : a.y ≠ b.y := by
      intro h
      rw [h] at hs
      exact hs Iff.rfl
    have h1 : b.y - a.y ≠ 0 := sub_ne_zero.mpr (Ne.symm hne)
    have h2 : a.y - b.y ≠ 0 := sub_ne_zero.mpr hne
    field_simp
    ring
  constructor
  · rintro ⟨hs, hx⟩
    have hs' : ¬(pt.y < b.y ↔ pt.y < a.y) := fun h => hs h.symm
    exact ⟨hs', by rw [← key hs]; exact hx⟩
  · rintro ⟨hs, hx⟩
    have hs' : ¬(pt.y < a.y ↔ pt.y < b.y) := fun h => hs h.symm
    exact ⟨hs', by rw [key hs']; exact hx⟩

theorem edgeCrossed_self (pt a : Point) : edgeCrossed pt a a = false := by
  simp [edgeCrossed]

/-- A polygon with fewer than three vertices contains no point. -/
theorem pointinsidepoly_short (pt : Point) (polygon : List Point) (h : polygon.length < 3) :
    pointinsidepoly pt polygon = false := by
  rw [pointinsidepoly_eq_rayLoop]
  match polygon, h with
  | [], _ => rfl
  | [a], _ => simp [rayLoop, edgeCrossed_self]
  | [a, b], _ =>
    simp only [rayLoop, List.length_cons, List.length_nil, List.getD_cons_succ,
      List.getD_cons_zero, Nat.zero_add, Nat.reduceAdd, Nat.add_one_sub_one]
    rw [edgeCrossed_comm pt b a]
    cases edgeCrossed pt a b <;> rfl
  | _ :: _ :: _ :: _, h => simp at h; omega

theorem foldl_flip (l : List Nat) :
    ∀ b : Bool, l.foldl (fun inside _ => !inside) b = (if Odd l.length then !b else b) := by
  induction l with
  | nil => intro b; simp
  | cons i l ih =>
    intro b
    rw [List.foldl_cons, ih, List.length_cons]
    by_cases h : Odd l.length
    · have h' : ¬Odd (l.length + 1) := by rw [Nat.odd_add_one]; exact not_not.mpr h
      simp [h, h']
    · have h' : Odd (l.length + 1) := by rw [Nat.odd_add_one]; exact h
      simp [h, h']

theorem fold_state_eq_filter (c : Nat → Nat → Bool) (m : Nat) :
    ∀ (n s : Nat) (b : Bool),
      ((List.range' s n).foldl
        (fun (st : Nat × Bool) (i : Nat) => (i, if c i st.1 then !st.2 else st.2))
        (if s = 0 then m - 1 else s - 1, b)).2
      = ((List.range' s n).filter (fun i => c i (if i = 0 then m - 1 else i - 1))).foldl
          (fun inside _ => !inside) b := by
  intro n
  induction n with
  | zero => intro s b; simp
  | succ n ih =>
    intro s b
    have h := ih (s + 1) (if c s (if s = 0 then m - 1 else s - 1) then !b else b)
    simp only [Nat.succ_ne_zero, if_false, Nat.add_sub_cancel] at h
    simp only [List.range', List.foldl_cons, List.filter_cons]
    rw [h]
    by_cases hc : c s (if s = 0 then m - 1 else s - 1) = true
    · simp [hc]
    · simp [hc]

theorem pointinsidepoly_eq_crossing_fold (p : Point) (P : List Point) :
    pointinsidepoly p P = (crossingIndices p P).foldl (fun inside _ => !inside) false := by
  have h := fold_state_eq_filter
    (fun i j => edgeCrossed p (P.getD i default) (P.getD j default)) P.length P.length 0 false
  simp only [if_true] at h
  simp only [pointinsidepoly, List.range_eq_range', crossingIndices]
  rw [h]
  congr 1
  apply List.filter_congr
  intro i _
  rw [Bool.eq_iff_iff, edgeCrossed_iff]
  simp

/-! ## Reversal of the vertex order -/

theorem rayLoop_eq_pathParity (pt : Point) (vs : List Point) :
    ∀ (prev : Point) (b : Bool), rayLoop pt prev vs b = xor b (pathParity pt (prev :: vs)) := by
  induction vs with
  | nil => intro prev b; simp [rayLoop, pathParity]
  | cons v vs ih =>
    intro prev b
    simp only [rayLoop, pathParity]
    rw [ih]
    cases b <;> cases edgeCrossed pt v prev <;> cases pathParity pt (v :: vs) <;> rfl

theorem pathParity_append_two (pt : Point) (l : List Point) :
    ∀ (y x : Point), pathParity pt (l ++ [y, x])
      = xor (pathParity pt (l ++ [y])) (edgeCrossed pt x y) := by
  induction l with
  | nil => intro y x; simp [pathParity]
  | cons a l ih =>
    intro y x
    cases l with
    | nil =>
      simp only [List.cons_append, List.nil_append, pathParity]
      cases edgeCrossed pt y a <;> cases edgeCrossed pt x y <;> rfl
    | cons b rest =>
      have h := ih y x
      simp only [List.cons_append] at h ⊢
      simp only [pathParity]
      rw [h]
      cases edgeCrossed pt b a <;> cases pathParity pt (b :: (rest ++ [y])) <;>
        cases edgeCrossed pt x y <;> rfl

theorem pathParity_reverse (pt : Point) :
    ∀ l : List Point, pathParity pt l.reverse = pathParity pt l
  | [] => rfl
  | [_] => rfl
  | a :: b :: rest => by
    have ih := pathParity_reverse pt (b :: rest)
    have h : (a :: b :: rest).reverse = rest.reverse ++ [b, a] := by simp
    have h' : (b :: rest).reverse = rest.reverse ++ [b] := by simp
    rw [h, pathParity_append_two, ← h', ih, edgeCrossed_comm pt a b]
    simp only [pathParity]
    cases edgeCrossed pt b a <;> cases pathParity pt (b :: rest) <;> rfl

theorem getD_last_concat (l : List Point) (z : Point) :
    (l ++ [z]).getD ((l ++ [z]).length - 1) default = z := by
  have h : (l ++ [z]).length - 1 = l.length := by simp
  rw [h, List.getD_eq_getElem?_getD, List.getElem?_append_right (le_refl _)]
  simp

/-- The loop of `pointinsidepoly` computes the parity along the closed walk that starts at
the last vertex and then visits all vertices in order. -/
theorem pointinsidepoly_eq_pathParity (pt : Point) (polygon : List Point) :
    pointinsidepoly pt polygon
      = pathParity pt (polygon.getD (polygon.length - 1) default :: polygon) := by
  rw [pointinsidepoly_eq_rayLoop, rayLoop_eq_pathParity]
  simp

theorem pointinsidepoly_reverse (pt : Point) (polygon : List Point) :
    pointinsidepoly pt polygon.reverse = pointinsidepoly pt polygon := by
  rcases List.eq_nil_or_concat polygon with rfl | ⟨R, z, h⟩
  · rfl
  · rw [List.concat_eq_append] at h
    subst h
    rw [pointinsidepoly_eq_pathParity, pointinsidepoly_eq_pathParity, getD_last_concat]
    cases R with
    | nil => simp
    | cons a Q =>
      have hrev : ((a :: Q) ++ [z]).reverse = (z :: Q.reverse) ++ [a] := by simp
      rw [hrev, getD_last_concat]
      have hw : a :: ((z :: Q.reverse) ++ [a]) = ((a :: Q) ++ [z, a]).reverse := by simp
      rw [hw, pathParity_reverse, pathParity_append_two]
      simp only [List.cons_append, pathParity]
      cases edgeCrossed pt a z <;> cases pathParity pt (a :: (Q ++ [z])) <;> rfl

/-! ## The computed bounds are attained -/

theorem DBL_MAX_pos : 0 < DBL_MAX := by
  norm_num [DBL_MAX]

/-- Each component of the accumulator after the loop of `calboundingbox` is either its
initial value or the coordinate of some vertex. -/
theorem BoxAcc.foldl_step_attained (polygon : List Point) :
    ∀ a : BoxAcc,
      ((polygon.foldl BoxAcc.step a).minX = a.minX ∨
          ∃ v ∈ polygon, v.x = (polygon.foldl BoxAcc.step a).minX) ∧
        ((polygon.foldl BoxAcc.step a).maxX = a.maxX ∨
          ∃ v ∈ polygon, v.x = (polygon.foldl BoxAcc.step a).maxX) ∧
        ((polygon.foldl BoxAcc.step a).minY = a.minY ∨
          ∃ v ∈ polygon, v.y = (polygon.foldl BoxAcc.step a).minY) ∧
        ((polygon.foldl BoxAcc.step a).maxY = a.maxY ∨
          ∃ v ∈ polygon, v.y = (polygon.foldl BoxAcc.step a).maxY) := by
  induction polygon with
  | nil => intro a; simp
  | cons p ps ih =>
    intro a
    obtain ⟨h1, h2, h3, h4⟩ := ih (a.step p)
    simp only [List.foldl_cons]
    refine ⟨?_, ?_, ?_, ?_⟩
    · rcases h1 with h | ⟨v, hv, hx⟩
      · rcases min_choice a.minX p.x with hm | hm
        · exact Or.inl (by rw [h]; exact hm)
        · exact Or.inr ⟨p, by simp, by rw [h]; exact hm.symm⟩
      · exact Or.inr ⟨v, List.mem_cons_of_mem _ hv, hx⟩
    · rcases h2 with h | ⟨v, hv, hx⟩
      · rcases max_choice a.maxX p.x with hm | hm
        · exact Or.inl (by rw [h]; exact hm)
        · exact Or.inr ⟨p, by simp, by rw [h]; exact hm.symm⟩
      · exact Or.inr ⟨v, List.mem_cons_of_mem _ hv, hx⟩
    · rcases h3 with h | ⟨v, hv, hx⟩
      · rcases min_choice a.minY p.y with hm | hm
        · exact Or.inl (by rw [h]; exact hm)
        · exact Or.inr ⟨p, by simp, by rw [h]; exact hm.symm⟩
      · exact Or.inr ⟨v, List.mem_cons_of_mem _ hv, hx⟩
    · rcases h4 with h | ⟨v, hv, hx⟩
      · rcases max_choice a.maxY p.y with hm | hm
        · exact Or.inl (by rw [h]; exact hm)
        · exact Or.inr ⟨p, by simp, by rw [h]; exact hm.symm⟩
      · exact Or.inr ⟨v, List.mem_cons_of_mem _ hv, hx⟩

/-- For a non-empty polygon with coordinates within `[-DBL_MAX, DBL_MAX]` each bound computed
by `calboundingbox` is the coordinate of some vertex. -/
theorem calboundingbox_attained (polygon : List Point) (hne : polygon ≠ [])
    (hr : ∀ v ∈ polygon, -DBL_MAX ≤ v.x ∧ v.x ≤ DBL_MAX ∧ -DBL_MAX ≤ v.y ∧ v.y ≤ DBL_MAX) :
    (∃ v ∈ polygon, v.x = (calboundingbox polygon).1.x) ∧
      (∃ v ∈ polygon, v.x = (calboundingbox polygon).2.x) ∧
      (∃ v ∈ polygon, v.y = (calboundingbox polygon).1.y) ∧
      (∃ v ∈ polygon, v.y = (calboundingbox polygon).2.y) := by
  obtain ⟨w, hw⟩ := List.exists_mem_of_ne_nil polygon hne
  obtain ⟨b1, b2, b3, b4⟩ := calboundingbox_contains polygon w hw
  obtain ⟨r1, r2, r3, r4⟩ := hr w hw
  obtain ⟨h1, h2, h3, h4⟩ := BoxAcc.foldl_step_attained polygon
    { minX := DBL_MAX, maxX := -DBL_MAX, minY := DBL_MAX, maxY := -DBL_MAX }
  refine ⟨?_, ?_, ?_, ?_⟩
  · rcases h1 with h | h
    · exact ⟨w, hw, le_antisymm (r2.trans (le_of_eq h.symm)) b1⟩
    · exact h
  · rcases h2 with h | h
    · exact ⟨w, hw, le_antisymm b2 ((le_of_eq h).trans r1)⟩
    · exact h
  · rcases h3 with h | h
    · exact ⟨w, hw, le_antisymm (r4.trans (le_of_eq h.symm)) b3⟩
    · exact h
  · rcases h4 with h | h
    · exact ⟨w, hw, le_antisymm b4 ((le_of_eq h).trans r3)⟩
    · exact h

/-! ## The hazard-checked loop -/

theorem vertexAt_natCast (polygon : List Point) (k : Nat) (h : k < polygon.length) :
    vertexAt polygon (k : Int) = some (polygon.getD k default) := by
  simp [vertexAt, List.getD_eq_getElem?_getD, List.getElem?_eq_getElem h]

/-- Whenever the quotient is evaluated its divisor is non-zero. -/
theorem edgeCrossedChecked_eq (pt vi vj : Point) :
    edgeCrossedChecked pt vi vj = some (edgeCrossed pt vi vj) := by
  unfold edgeCrossedChecked edgeCrossed
  by_cases hs : (decide (vi.y > pt.y) != decide (vj.y > pt.y)) = true
  · have hne : vj.y - vi.y ≠ 0 := by
      intro h0
      have h : vj.y = vi.y := sub_eq_zero.mp h0
      rw [h] at hs
      simp at hs
    rw [if_pos hs, if_neg hne, hs, Bool.true_and]
  · rw [if_neg hs, Bool.eq_false_iff.mpr hs, Bool.false_and]

theorem checked_fold (pt : Point) (polygon : List Point) :
    ∀ (n s j : Nat) (b : Bool) (c : Nat), s + n ≤ polygon.length → j < polygon.length →
      (List.range' s n).foldl
        (fun (s : Option (Int × Bool × Nat)) (i : Nat) =>
          s.bind fun st =>
            match vertexAt polygon (i : Int), vertexAt polygon st.1 with
            | some vi, some vj =>
              (edgeCrossedChecked pt vi vj).map fun c =>
                ((i : Int), (if c then !st.2.1 else st.2.1), st.2.2 + 1)
            | _, _ => none)
        (some ((j : Int), b, c))
      = some (Int.ofNat ((List.range' s n).foldl
          (fun (s : Nat × Bool) (i : Nat) =>
            (i, if edgeCrossed pt (polygon.getD i default) (polygon.getD s.1 default)
                then !s.2 else s.2)) (j, b)).1,
          ((List.range' s n).foldl
          (fun (s : Nat × Bool) (i : Nat) =>
            (i, if edgeCrossed pt (polygon.getD i default) (polygon.getD s.1 default)
                then !s.2 else s.2)) (j, b)).2, c + n) := by
  intro n
  induction n with
  | zero => intro s j b c _ _; simp
  | succ n ih =>
    intro s j b c hs hj
    have hs' : s < polygon.length := by omega
    simp only [List.range', List.foldl_cons, Option.some_bind]
    rw [vertexAt_natCast polygon s hs', vertexAt_natCast polygon j hj]
    simp only [edgeCrossedChecked_eq, Option.map_some'] at ih ⊢
    rw [ih (s + 1) s _ (c + 1) (by omega) hs']
    congr 3
    omega

/-- The loop of `pointinsidepoly` never reads a vertex out of range and never divides by
zero; it enters its body once per vertex and returns the value of `pointinsidepoly`. -/
theorem pointinsidepolyChecked_eq (pt : Point) (polygon : List Point) :
    pointinsidepolyChecked pt polygon = some (pointinsidepoly pt polygon, polygon.length) := by
  cases polygon with
  | nil => rfl
  | cons v vs =>
    have h := checked_fold pt (v :: vs) (v :: vs).length 0 vs.length false 0 (by simp)
      (by simp)
    have hj : (((v :: vs).length : Nat) : Int) - 1 = ((vs.length : Nat) : Int) := by
      simp
    simp only [pointinsidepolyChecked, pointinsidepoly, List.range_eq_range', hj]
    rw [h]
    simp

/-! ## Visited points and construction -/

theorem foldl_visited (f : List Nat → Nat → List Nat) (l : List Nat) :
    ∀ (a v : List Nat),
      l.foldl (fun (st : List Nat × List Nat) (i : Nat) => (f st.1 i, st.2 ++ [i])) (a, v)
        = (l.foldl f a, v ++ l) := by
  induction l with
  | nil => intro a v; simp
  | cons i l ih => intro a v; simp [ih]

/-- The loop of `queryPoly` reads every dataset point, whatever the polygon. -/
theorem RangeSearch.queryPolyVisited_eq (self : RangeSearch) (polygon : List Point) :
    self.queryPolyVisited polygon = (self.queryPoly polygon, List.range self.pointCount) := by
  have h := foldl_visited (fun (result : List Nat) (i : Nat) =>
      if (self.dataPts.getD i default).x ≥ (calboundingbox polygon).1.x ∧
          (self.dataPts.getD i default).x ≤ (calboundingbox polygon).2.x ∧
          (self.dataPts.getD i default).y ≥ (calboundingbox polygon).1.y ∧
          (self.dataPts.getD i default).y ≤ (calboundingbox polygon).2.y then
        if pointinsidepoly (self.dataPts.getD i default) polygon then result ++ [i] else result
      else result) (List.range self.pointCount) [] []
  simp only [List.nil_append] at h
  exact h

/-- The result of `queryPoly` does not depend on the kd-tree. -/
theorem RangeSearch.queryPoly_kdTree_irrelevant (self : RangeSearch) (t : List Point)
    (polygon : List Point) :
    ({ self with kdTree := t } : RangeSearch).queryPoly polygon = self.queryPoly polygon := rfl

theorem queryPoly_no_points (P : List Point) : (RangeSearch.ctor []).queryPoly P = [] := rfl

theorem queryPolyCount_no_points (nnIdx0 : Int) (P : List Point) :
    (RangeSearch.ctor []).queryPolyCount nnIdx0 P = some 0 := rfl

/-! ## Lemmas on the queries as state transformers -/

theorem queryPolyStep_members (inside : Point → List Point → Bool) (polygon : List Point)
    (st : QueryFrame) (i : Nat) :
    (queryPolyStep inside polygon st i).dataPts = st.dataPts ∧
      (queryPolyStep inside polygon st i).kdTree = st.kdTree ∧
      (queryPolyStep inside polygon st i).pointCount = st.pointCount ∧
      (queryPolyStep inside polygon st i).minPt = st.minPt ∧
      (queryPolyStep inside polygon st i).maxPt = st.maxPt := by
  unfold queryPolyStep
  dsimp only
  split_ifs <;> exact ⟨rfl, rfl, rfl, rfl, rfl⟩

theorem queryPolyStep_result (inside : Point → List Point → Bool) (polygon : List Point)
    (st : QueryFrame) (i : Nat) :
    (queryPolyStep inside polygon st i).result
      = if (pointinsidebox (st.dataPts.getD i default) st.minPt st.maxPt &&
            inside (st.dataPts.getD i default) polygon) = true
        then st.result ++ [i] else st.result := by
  unfold queryPolyStep
  dsimp only
  by_cases hb : pointinsidebox (st.dataPts.getD i default) st.minPt st.maxPt = true
  · have hb' := (pointinsidebox_iff _ _ _).mp hb
    rw [if_pos hb', hb, Bool.true_and]
    split_ifs <;> rfl
  · have hb' := fun hh => hb ((pointinsidebox_iff _ _ _).mpr hh)
    rw [if_neg hb', Bool.eq_false_iff.mpr hb, Bool.false_and, if_neg Bool.false_ne_true]

theorem foldl_queryPolyStep (inside : Point → List Point → Bool) (polygon : List Point)
    (l : List Nat) :
    ∀ st : QueryFrame,
      ((l.foldl (queryPolyStep inside polygon) st).dataPts = st.dataPts ∧
        (l.foldl (queryPolyStep inside polygon) st).kdTree = st.kdTree ∧
        (l.foldl (queryPolyStep inside polygon) st).pointCount = st.pointCount) ∧
      (l.foldl (queryPolyStep inside polygon) st).result
        = st.result ++ l.filter (fun i =>
            pointinsidebox (st.dataPts.getD i default) st.minPt st.maxPt &&
              inside (st.dataPts.getD i default) polygon) := by
  induction l with
  | nil => intro st; simp
  | cons i l ih =>
    intro st
    obtain ⟨h1, h2, h3, h4, h5⟩ := queryPolyStep_members inside polygon st i
    obtain ⟨⟨g1, g2, g3⟩, g4⟩ := ih (queryPolyStep inside polygon st i)
    simp only [List.foldl_cons]
    refine ⟨⟨g1.trans h1, g2.trans h2, g3.trans h3⟩, ?_⟩
    rw [g4, h1, h4, h5, queryPolyStep_result, List.filter_cons]
    split_ifs <;> simp

/-- The list returned by a call of `queryPoly`, and the engine it leaves behind. -/
theorem RangeSearch.callQueryPolyWith_eq (inside : Point → List Point → Bool)
    (self : RangeSearch) (polygon : List Point) :
    self.callQueryPolyWith inside polygon
      = (Outcome.returned ((List.range self.pointCount).filter (fun i =>
          pointinsidebox (self.dataPts.getD i default) (calboundingbox polygon).1
              (calboundingbox polygon).2 &&
            inside (self.dataPts.getD i default) polygon)), self) := by
  obtain ⟨⟨g1, g2, g3⟩, g4⟩ := foldl_queryPolyStep inside polygon (List.range self.pointCount)
    { QueryFrame.enter self with
      minPt := (calboundingbox polygon).1, maxPt := (calboundingbox polygon).2 }
  have hr : (self.runQueryPoly inside polygon).result
      = (List.range self.pointCount).filter (fun i =>
          pointinsidebox (self.dataPts.getD i default) (calboundingbox polygon).1
              (calboundingbox polygon).2 &&
            inside (self.dataPts.getD i default) polygon) := by
    have := g4
    simp only [QueryFrame.enter, List.nil_append] at this
    exact this
  have he : (self.runQueryPoly inside polygon).engine = self := by
    have e1 : (self.runQueryPoly inside polygon).dataPts = self.dataPts := g1
    have e2 : (self.runQueryPoly inside polygon).kdTree = self.kdTree := g2
    have e3 : (self.runQueryPoly inside polygon).pointCount = self.pointCount := g3
    simp only [QueryFrame.engine, e1, e2, e3]
  simp only [RangeSearch.callQueryPolyWith, hr, he]

theorem foldl_bind_none {α β : Type} (f : α → β → Option α) (l : List β) :
    l.foldl (fun (s : Option α) (i : β) => s.bind fun a => f a i) none = none := by
  induction l with
  | nil => rfl
  | cons i l ih => simpa only [List.foldl_cons, Option.none_bind] using ih

theorem foldl_countStep_none (inside : Point → List Point → Bool) (dataPts : List Point)
    (pointCount : Nat) (minPt maxPt : Point) (nnIdx0 : Int) (polygon : List Point)
    (l : List Nat) :
    l.foldl (countStep inside dataPts pointCount minPt maxPt nnIdx0 polygon) none = none := by
  induction l with
  | nil => rfl
  | cons i l ih => simpa only [List.foldl_cons, countStep, Option.none_bind] using ih

/-- One iteration of the loop of `queryPolyCount` either stops with undefined behaviour, or
leaves the data members and the bounding box unchanged and updates the counter. -/
theorem queryPolyCountStep_spec (inside : Point → List Point → Bool) (nnIdx0 : Int)
    (polygon : List Point) (st : QueryFrame) (i : Nat) :
    (queryPolyCountStep inside nnIdx0 polygon st i = none ∧
        countStep inside st.dataPts st.pointCount st.minPt st.maxPt nnIdx0 polygon
          (some st.count) i = none) ∨
      ∃ st1 : QueryFrame, queryPolyCountStep inside nnIdx0 polygon st i = some st1 ∧
        st1.dataPts = st.dataPts ∧ st1.kdTree = st.kdTree ∧
        st1.pointCount = st.pointCount ∧ st1.minPt = st.minPt ∧ st1.maxPt = st.maxPt ∧
        countStep inside st.dataPts st.pointCount st.minPt st.maxPt nnIdx0 polygon
          (some st.count) i = some st1.count := by
  unfold queryPolyCountStep countStep
  dsimp only [Option.some_bind]
  by_cases hb : pointinsidebox (st.dataPts.getD i default) st.minPt st.maxPt = true
  · rw [if_pos hb, if_pos hb]
    by_cases hk : 0 ≤ nnIdx0 ∧ nnIdx0 < (st.pointCount : Int)
    · rw [if_pos hk, if_pos hk]
      by_cases hp : inside (st.dataPts.getD nnIdx0.toNat default) polygon = true
      · rw [if_pos hp, if_pos hp]
        exact Or.inr ⟨_, rfl, rfl, rfl, rfl, rfl, rfl, rfl⟩
      · rw [if_neg hp, if_neg hp]
        exact Or.inr ⟨_, rfl, rfl, rfl, rfl, rfl, rfl, rfl⟩
    · rw [if_neg hk, if_neg hk]
      exact Or.inl ⟨rfl, rfl⟩
  · rw [if_neg hb, if_neg hb]
    exact Or.inr ⟨_, rfl, rfl, rfl, rfl, rfl, rfl, rfl⟩

theorem foldl_queryPolyCountStep (inside : Point → List Point → Bool) (nnIdx0 : Int)
    (polygon : List Point) (l : List Nat) :
    ∀ st : QueryFrame,
      (∀ st' : QueryFrame,
        l.foldl (fun (s : Option QueryFrame) (i : Nat) =>
            s.bind fun st => queryPolyCountStep inside nnIdx0 polygon st i) (some st)
          = some st' →
        st'.dataPts = st.dataPts ∧ st'.kdTree = st.kdTree ∧
          st'.pointCount = st.pointCount) ∧
      (l.foldl (fun (s : Option QueryFrame) (i : Nat) =>
          s.bind fun st => queryPolyCountStep inside nnIdx0 polygon st i) (some st)).map
          (fun st => st.count)
        = l.foldl (countStep inside st.dataPts st.pointCount st.minPt st.maxPt nnIdx0 polygon)
            (some st.count) := by
  induction l with
  | nil =>
    intro st
    refine ⟨?_, rfl⟩
    intro st' h
    have : st = st' := Option.some.inj h
    subst this
    exact ⟨rfl, rfl, rfl⟩
  | cons i l ih =>
    intro st
    simp only [List.foldl_cons, Option.some_bind]
    rcases queryPolyCountStep_spec inside nnIdx0 polygon st i with ⟨h1, h2⟩ |
      ⟨st1, h1, m1, m2, m3, m4, m5, h2⟩
    · rw [h1, h2, foldl_bind_none, foldl_countStep_none]
      exact ⟨fun st' h => Option.noConfusion h, rfl⟩
    · obtain ⟨g1, g2⟩ := ih st1
      rw [h1, h2]
      refine ⟨?_, ?_⟩
      · intro st' h
        obtain ⟨a1, a2, a3⟩ := g1 st' h
        exact ⟨a1.trans m1, a2.trans m2, a3.trans m3⟩
      · rw [g2, m1, m3, m4, m5]

/-- The count returned by a call of `queryPolyCount`, and the engine it leaves behind. -/
theorem RangeSearch.callQueryPolyCountWith_eq (inside : Point → List Point → Bool)
    (self : RangeSearch) (nnIdx0 : Int) (polygon : List Point) :
    self.callQueryPolyCountWith inside nnIdx0 polygon
      = ((List.range self.pointCount).foldl
          (countStep inside self.dataPts self.pointCount (calboundingbox polygon).1
            (calboundingbox polygon).2 nnIdx0 polygon) (some 0)).map
          (fun c => (Outcome.returned c, self)) := by
  obtain ⟨g1, g2⟩ := foldl_queryPolyCountStep inside nnIdx0 polygon
    (List.range self.pointCount)
    { QueryFrame.enter self with
      minPt := (calboundingbox polygon).1, maxPt := (calboundingbox polygon).2 }
  have hrun : self.runQueryPolyCount inside nnIdx0 polygon
      = (List.range self.pointCount).foldl (fun (s : Option QueryFrame) (i : Nat) =>
          s.bind fun st => queryPolyCountStep inside nnIdx0 polygon st i)
          (some { QueryFrame.enter self with
            minPt := (calboundingbox polygon).1, maxPt := (calboundingbox polygon).2 }) := rfl
  have g2' : (self.runQueryPolyCount inside nnIdx0 polygon).map (fun st => st.count)
      = (List.range self.pointCount).foldl
          (countStep inside self.dataPts self.pointCount (calboundingbox polygon).1
            (calboundingbox polygon).2 nnIdx0 polygon) (some 0) := by
    rw [hrun]
    exact g2
  unfold RangeSearch.callQueryPolyCountWith
  rw [← g2']
  cases hst : self.runQueryPolyCount inside nnIdx0 polygon with
  | none => rfl
  | some st' =>
    rw [hrun] at hst
    obtain ⟨e1, e2, e3⟩ := g1 st' hst
    have he : st'.engine = self := by
      simp only [QueryFrame.engine, e1, e2, e3]
      rfl
    simp only [Option.map_some', he]

/-- The pure counter loop is the loop of `queryPolyCount`. -/
theorem RangeSearch.queryPolyCount_eq_countStep (self : RangeSearch) (nnIdx0 : Int)
    (polygon : List Point) :
    self.queryPolyCount nnIdx0 polygon
      = (List.range self.pointCount).foldl
          (countStep pointinsidepoly self.dataPts self.pointCount (calboundingbox polygon).1
            (calboundingbox polygon).2 nnIdx0 polygon) (some 0) := rfl

/-- With a valid `nnIdx[0]` the counter loop returns a count. -/
theorem foldl_countStep_valid (inside : Point → List Point → Bool) (dataPts : List Point)
    (pointCount : Nat) (minPt maxPt : Point) (nnIdx0 : Int) (polygon : List Point)
    (hk : 0 ≤ nnIdx0 ∧ nnIdx0 < (pointCount : Int)) (l : List Nat) :
    ∀ c : Nat, ∃ n : Nat,
      l.foldl (countStep inside dataPts pointCount minPt maxPt nnIdx0 polygon) (some c)
        = some n := by
  induction l with
  | nil => intro c; exact ⟨c, rfl⟩
  | cons i l ih =>
    intro c
    simp only [List.foldl_cons, countStep, Option.some_bind, if_pos hk]
    split_ifs
    · exact ih (c + 1)
    · exact ih c
    · exact ih c

theorem RangeSearch.callQueryPoly_eq (self : RangeSearch) (polygon : List Point) :
    self.callQueryPoly polygon = (Outcome.returned (self.queryPoly polygon), self) := by
  rw [RangeSearch.callQueryPoly, RangeSearch.callQueryPolyWith_eq,
    RangeSearch.queryPoly_eq_filter]

theorem RangeSearch.callQueryPolyCount_eq (self : RangeSearch) (nnIdx0 : Int)
    (polygon : List Point) :
    self.callQueryPolyCount nnIdx0 polygon
      = (self.queryPolyCount nnIdx0 polygon).map (fun c => (Outcome.returned c, self)) := by
  rw [RangeSearch.callQueryPolyCount, RangeSearch.callQueryPolyCountWith_eq,
    RangeSearch.queryPolyCount_eq_countStep]

/-! ## Lemmas on binary64 rounding -/

theorem roundHalfEven_eq_of_near (x : ℚ) (m : ℤ) (h1 : (m : ℚ) - 1 / 2 < x)
    (h2 : x < (m : ℚ) + 1 / 2) : roundHalfEven x = m := by
  unfold roundHalfEven
  by_cases hf : (m : ℚ) ≤ x
  · have hfl : ⌊x⌋ = m := Int.floor_eq_iff.mpr ⟨hf, by linarith⟩
    rw [hfl, if_pos (by linarith)]
  · have hf' : x < (m : ℚ) := not_le.mp hf
    have hfl : ⌊x⌋ = m - 1 := by
      rw [Int.floor_eq_iff]
      push_cast
      constructor <;> linarith
    rw [hfl]
    push_cast
    rw [if_neg (by linarith), if_pos (by linarith)]
    ring

theorem roundHalfEven_intCast (m : ℤ) : roundHalfEven (m : ℚ) = m :=
  roundHalfEven_eq_of_near _ m (by linarith) (by linarith)

theorem roundHalfEven_zero : roundHalfEven 0 = 0 := by
  have h := roundHalfEven_intCast 0
  simpa using h

/-- Rounding never goes below the floor. -/
theorem floor_le_roundHalfEven (x : ℚ) : ⌊x⌋ ≤ roundHalfEven x := by
  unfold roundHalfEven
  split_ifs <;> omega

theorem one_le_roundHalfEven (x : ℚ) (h : 1 ≤ x) : 1 ≤ roundHalfEven x := by
  have h1 : (1 : ℤ) ≤ ⌊x⌋ := Int.le_floor.mpr (by exact_mod_cast h)
  exact h1.trans (floor_le_roundHalfEven x)

theorem log_two_eq (q : ℚ) (e : ℤ) (h1 : (2 : ℚ) ^ e ≤ q) (h2 : q < (2 : ℚ) ^ (e + 1)) :
    Int.log 2 q = e := by
  have hpos : 0 < q := lt_of_lt_of_le (zpow_pos (by norm_num) e) h1
  apply le_antisymm
  · have := (Int.lt_zpow_iff_log_lt (b := 2) (by norm_num) hpos (x := e + 1)).mp
      (by exact_mod_cast h2)
    omega
  · exact (Int.zpow_le_iff_le_log (b := 2) (by norm_num) hpos).mp (by exact_mod_cast h1)

theorem quantumExp_zero : quantumExp 0 = -52 := by
  simp [quantumExp, Int.log_zero_right]

theorem roundDouble_zero : roundDouble 0 = Dbl.fin 0 := by
  unfold roundDouble
  rw [if_neg (by norm_num), if_neg (by norm_num)]
  simp [roundHalfEven_zero]

/-- Evaluation of `roundDouble` away from ties: `e` is the binary exponent of `q` and `m` the
nearest integer multiple of the quantum. -/
theorem roundDouble_eq (q : ℚ) (e m : ℤ) (h1 : (2 : ℚ) ^ e ≤ |q|) (h2 : |q| < (2 : ℚ) ^ (e + 1))
    (hr : |q| < 2 ^ 1024 - 2 ^ 970)
    (hm1 : (m : ℚ) - 1 / 2 < q / 2 ^ (max (e - 52) (-1074)))
    (hm2 : q / 2 ^ (max (e - 52) (-1074)) < (m : ℚ) + 1 / 2) :
    roundDouble q = Dbl.fin (m * 2 ^ (max (e - 52) (-1074))) := by
  have hq : quantumExp q = max (e - 52) (-1074) := by
    unfold quantumExp
    rw [log_two_eq |q| e h1 h2]
  have hlt := abs_lt.mp hr
  unfold roundDouble
  rw [if_neg (by linarith [hlt.2]), if_neg (by linarith [hlt.1]), hq,
    roundHalfEven_eq_of_near _ m hm1 hm2]

/-- A result of magnitude at most `DBL_MAX` does not overflow. -/
theorem roundDouble_finite (q : ℚ) (h : |q| ≤ DBL_MAX) : ∃ r : ℚ, roundDouble q = Dbl.fin r := by
  have hD : DBL_MAX < 2 ^ 1024 - 2 ^ 970 := by norm_num [DBL_MAX]
  have hlt := abs_lt.mp (lt_of_le_of_lt h hD)
  unfold roundDouble
  rw [if_neg (by linarith [hlt.2]), if_neg (by linarith [hlt.1])]
  exact ⟨_, rfl⟩

theorem roundDouble_ne_nan (q : ℚ) : roundDouble q ≠ Dbl.nan := by
  unfold roundDouble
  split_ifs <;> exact fun h => Dbl.noConfusion h

/-- Evaluation of `roundDouble` on a positive number, with the quantum exponent `k` given
explicitly. -/
theorem roundDouble_eval_pos (q : ℚ) (e k m : ℤ) (hk : max (e - 52) (-1074) = k)
    (h1 : (2 : ℚ) ^ e ≤ q) (h2 : q < (2 : ℚ) ^ (e + 1)) (hr : q < 2 ^ 1024 - 2 ^ 970)
    (hm1 : (m : ℚ) - 1 / 2 < q / 2 ^ k) (hm2 : q / 2 ^ k < (m : ℚ) + 1 / 2) :
    roundDouble q = Dbl.fin (m * 2 ^ k) := by
  have hpos : 0 < q := lt_of_lt_of_le (zpow_pos (by norm_num) e) h1
  subst hk
  exact roundDouble_eq q e m (by rw [abs_of_pos hpos]; exact h1)
    (by rw [abs_of_pos hpos]; exact h2) (by rw [abs_of_pos hpos]; exact hr) hm1 hm2

/-- Evaluation of `roundDouble` on a negative number `-q`. -/
theorem roundDouble_eval_neg (q : ℚ) (e k m : ℤ) (hk : max (e - 52) (-1074) = k)
    (h1 : (2 : ℚ) ^ e ≤ q) (h2 : q < (2 : ℚ) ^ (e + 1)) (hr : q < 2 ^ 1024 - 2 ^ 970)
    (hm1 : (m : ℚ) - 1 / 2 < -q / 2 ^ k) (hm2 : -q / 2 ^ k < (m : ℚ) + 1 / 2) :
    roundDouble (-q) = Dbl.fin (m * 2 ^ k) := by
  have hpos : 0 < q := lt_of_lt_of_le (zpow_pos (by norm_num) e) h1
  subst hk
  exact roundDouble_eq (-q) e m (by rw [abs_neg, abs_of_pos hpos]; exact h1)
    (by rw [abs_neg, abs_of_pos hpos]; exact h2)
    (by rw [abs_neg, abs_of_pos hpos]; exact hr) hm1 hm2

theorem roundDouble_one : roundDouble 1 = Dbl.fin 1 := by
  rw [roundDouble_eval_pos 1 0 (-52) (2 ^ 52) (by decide) (by norm_num) (by norm_num)
    (by norm_num) (by norm_num) (by norm_num)]
  norm_num

theorem roundDouble_two : roundDouble 2 = Dbl.fin 2 := by
  rw [roundDouble_eval_pos 2 1 (-51) (2 ^ 52) (by decide) (by norm_num) (by norm_num)
    (by norm_num) (by norm_num) (by norm_num)]
  norm_num

theorem roundDouble_three : roundDouble 3 = Dbl.fin 3 := by
  rw [roundDouble_eval_pos 3 1 (-51) (3 * 2 ^ 51) (by decide) (by norm_num) (by norm_num)
    (by norm_num) (by norm_num) (by norm_num)]
  norm_num

theorem roundDouble_neg_one : roundDouble (-1) = Dbl.fin (-1) := by
  rw [roundDouble_eval_neg 1 0 (-52) (-2 ^ 52) (by decide) (by norm_num) (by norm_num)
    (by norm_num) (by norm_num) (by norm_num)]
  norm_num

theorem roundDouble_neg_two : roundDouble (-2) = Dbl.fin (-2) := by
  rw [roundDouble_eval_neg 2 1 (-51) (-2 ^ 52) (by decide) (by norm_num) (by norm_num)
    (by norm_num) (by norm_num) (by norm_num)]
  norm_num

theorem roundDouble_neg_three : roundDouble (-3) = Dbl.fin (-3) := by
  rw [roundDouble_eval_neg 3 1 (-51) (-(3 * 2 ^ 51)) (by decide) (by norm_num) (by norm_num)
    (by norm_num) (by norm_num) (by norm_num)]
  norm_num

/-- The double nearest to `1/3` is `6004799503160661 / 2^54`. -/
theorem roundDouble_third : roundDouble (1 / 3) = Dbl.fin (6004799503160661 / 2 ^ 54) := by
  rw [roundDouble_eval_pos (1 / 3) (-2) (-54) 6004799503160661 (by decide) (by norm_num)
    (by norm_num) (by norm_num) (by norm_num) (by norm_num)]
  norm_num

/-- The number `6004799503160661 / 2^54` is a double. -/
theorem roundDouble_third_exact :
    roundDouble (6004799503160661 / 2 ^ 54) = Dbl.fin (6004799503160661 / 2 ^ 54) := by
  rw [roundDouble_eval_pos (6004799503160661 / 2 ^ 54) (-2) (-54) 6004799503160661 (by decide)
    (by norm_num) (by norm_num) (by norm_num) (by norm_num) (by norm_num)]
  norm_num

/-- The double nearest to `-2/3` is `-6004799503160661 / 2^53`. -/
theorem roundDouble_neg_two_thirds :
    roundDouble (-(2 / 3)) = Dbl.fin (-(6004799503160661 / 2 ^ 53)) := by
  rw [roundDouble_eval_neg (2 / 3) (-1) (-53) (-6004799503160661) (by decide) (by norm_num)
    (by norm_num) (by norm_num) (by norm_num) (by norm_num)]
  norm_num

/-- The sum `-6004799503160661 / 2^53 + 1` is the double `3002399751580331 / 2^53`. -/
theorem roundDouble_one_sub_two_thirds :
    roundDouble (3002399751580331 / 2 ^ 53) = Dbl.fin (3002399751580331 / 2 ^ 53) := by
  rw [roundDouble_eval_pos (3002399751580331 / 2 ^ 53) (-2) (-54) 6004799503160662 (by decide)
    (by norm_num) (by norm_num) (by norm_num) (by norm_num) (by norm_num)]
  norm_num

/-! ## The binary64 loop on short polygons -/

theorem edgeCrossedF_same_height (pt vi vj : Point) (h : vi.y = vj.y) :
    edgeCrossedF pt vi vj = false := by
  simp [edgeCrossedF, h]

theorem pointinsidepolyF_nil (pt : Point) : pointinsidepolyF pt [] = false := rfl

theorem pointinsidepolyF_single (pt a : Point) : pointinsidepolyF pt [a] = false := by
  simp [pointinsidepolyF, List.range, List.range.loop, edgeCrossedF_same_height]

/-- With two vertices the single edge is tested once in each direction. -/
theorem pointinsidepolyF_pair (pt a b : Point) :
    pointinsidepolyF pt [a, b] = xor (edgeCrossedF pt a b) (edgeCrossedF pt b a) := by
  simp only [pointinsidepolyF, List.length_cons, List.length_nil, List.range, List.range.loop,
    List.foldl_cons, List.foldl_nil, Nat.zero_add, Nat.reduceAdd, Nat.add_one_sub_one,
    List.getD_cons_zero, List.getD_cons_succ]
  cases edgeCrossedF pt a b <;> cases edgeCrossedF pt b a <;> rfl

theorem pointinsidepolyF_short (pt : Point) (polygon : List Point) (h : polygon.length < 2) :
    pointinsidepolyF pt polygon = false := by
  match polygon, h with
  | [], _ => rfl
  | [a], _ => exact pointinsidepolyF_single pt a
  | _ :: _ :: _, h => simp only [List.length_cons] at h; omega

/-! ## Evaluation of the binary64 loop at the two refuting inputs -/

theorem edgeCrossedF_pair_forward :
    edgeCrossedF ⟨6004799503160661 / 2 ^ 54, 1⟩ ⟨0, 0⟩ ⟨1, 3⟩ = false := by
  have s1 : Dbl.sub (Dbl.fin 1) (Dbl.fin 0) = Dbl.fin 1 := by
    simp [Dbl.sub, Dbl.neg, Dbl.add, roundDouble_one]
  have s2 : Dbl.sub (Dbl.fin 3) (Dbl.fin 0) = Dbl.fin 3 := by
    simp [Dbl.sub, Dbl.neg, Dbl.add, roundDouble_three]
  have m1 : Dbl.mul (Dbl.fin 1) (Dbl.fin 1) = Dbl.fin 1 := by
    simp [Dbl.mul, roundDouble_one]
  have d1 : Dbl.div (Dbl.fin 1) (Dbl.fin 3) = Dbl.fin (6004799503160661 / 2 ^ 54) := by
    simp only [Dbl.div]
    rw [if_neg (by norm_num), roundDouble_third]
  have a1 : Dbl.add (Dbl.fin (6004799503160661 / 2 ^ 54)) (Dbl.fin 0)
      = Dbl.fin (6004799503160661 / 2 ^ 54) := by
    simp only [Dbl.add, add_zero]
    exact roundDouble_third_exact
  simp only [edgeCrossedF, s1, s2, m1, d1, a1, Dbl.lt]
  norm_num

theorem edgeCrossedF_pair_backward :
    edgeCrossedF ⟨6004799503160661 / 2 ^ 54, 1⟩ ⟨1, 3⟩ ⟨0, 0⟩ = true := by
  have s1 : Dbl.sub (Dbl.fin 0) (Dbl.fin 1) = Dbl.fin (-1) := by
    simp [Dbl.sub, Dbl.neg, Dbl.add, roundDouble_neg_one]
  have s2 : Dbl.sub (Dbl.fin 1) (Dbl.fin 3) = Dbl.fin (-2) := by
    have h : (1 : ℚ) + -3 = -2 := by norm_num
    simp only [Dbl.sub, Dbl.neg, Dbl.add, h]
    exact roundDouble_neg_two
  have s3 : Dbl.sub (Dbl.fin 0) (Dbl.fin 3) = Dbl.fin (-3) := by
    simp [Dbl.sub, Dbl.neg, Dbl.add, roundDouble_neg_three]
  have m1 : Dbl.mul (Dbl.fin (-1)) (Dbl.fin (-2)) = Dbl.fin 2 := by
    have h : (-1 : ℚ) * -2 = 2 := by norm_num
    simp only [Dbl.mul, h]
    exact roundDouble_two
  have d1 : Dbl.div (Dbl.fin 2) (Dbl.fin (-3)) = Dbl.fin (-(6004799503160661 / 2 ^ 53)) := by
    have h : (2 : ℚ) / -3 = -(2 / 3) := by norm_num
    simp only [Dbl.div]
    rw [if_neg (by norm_num), h, roundDouble_neg_two_thirds]
  have a1 : Dbl.add (Dbl.fin (-(6004799503160661 / 2 ^ 53))) (Dbl.fin 1)
      = Dbl.fin (3002399751580331 / 2 ^ 53) := by
    have h : (-(6004799503160661 / 2 ^ 53) : ℚ) + 1 = 3002399751580331 / 2 ^ 53 := by norm_num
    simp only [Dbl.add, h]
    exact roundDouble_one_sub_two_thirds
  simp only [edgeCrossedF, s1, s2, s3, m1, d1, a1, Dbl.lt]
  norm_num

/-- In binary64 arithmetic the two-vertex polygon `(0,0),(1,3)` contains the point whose
coordinates are the double nearest to `1/3` and `1`. -/
theorem pointinsidepolyF_pair_true :
    pointinsidepolyF ⟨6004799503160661 / 2 ^ 54, 1⟩ [⟨0, 0⟩, ⟨1, 3⟩] = true := by
  rw [pointinsidepolyF_pair, edgeCrossedF_pair_forward, edgeCrossedF_pair_backward]
  rfl

/-! ## Doubles and their differences -/

theorem roundHalfEven_le_neg_one (x : ℚ) (h : x ≤ -1) : roundHalfEven x ≤ -1 := by
  have hf1 : (⌊x⌋ : ℚ) ≤ x := Int.floor_le x
  have hfl : ⌊x⌋ ≤ -1 := by
    have : (⌊x⌋ : ℚ) ≤ ((-1 : ℤ) : ℚ) := by push_cast; linarith
    exact_mod_cast this
  have key : ¬(x - ⌊x⌋ < 1 / 2) → ⌊x⌋ + 1 ≤ -1 := by
    intro hc
    by_contra hlt
    have h2 : (-1 : ℤ) ≤ ⌊x⌋ := by omega
    have h3 : ((-1 : ℤ) : ℚ) ≤ (⌊x⌋ : ℚ) := by exact_mod_cast h2
    push_cast at h3
    apply hc
    linarith
  unfold roundHalfEven
  split_ifs with h1 h2 h3
  · exact hfl
  · exact key h1
  · exact hfl
  · exact key h1

/-- Every double is an integer multiple of the least subnormal number `2^(-1074)`. -/
theorem isDouble_multiple (q : ℚ) (h : isDouble q) : ∃ k : ℤ, q = (k : ℚ) * 2 ^ (-1074 : ℤ) := by
  unfold isDouble roundDouble at h
  split_ifs at h
  obtain ⟨m, hm⟩ : ∃ m : ℤ, (m : ℚ) * 2 ^ quantumExp q = q := ⟨_, Dbl.fin.inj h⟩
  have hge : -1074 ≤ quantumExp q := le_max_right _ _
  obtain ⟨n, hn⟩ : ∃ n : ℕ, quantumExp q = (n : ℤ) + (-1074) :=
    ⟨(quantumExp q + 1074).toNat, by omega⟩
  have h2 : (2 : ℚ) ^ quantumExp q = 2 ^ n * 2 ^ (-1074 : ℤ) := by
    rw [hn, zpow_add₀ (by norm_num : (2 : ℚ) ≠ 0), zpow_natCast]
  refine ⟨m * 2 ^ n, ?_⟩
  calc q = (m : ℚ) * 2 ^ quantumExp q := hm.symm
    _ = (m : ℚ) * (2 ^ n * 2 ^ (-1074 : ℤ)) := by rw [h2]
    _ = ((m * 2 ^ n : ℤ) : ℚ) * 2 ^ (-1074 : ℤ) := by push_cast; ring

/-- Two distinct doubles differ by at least `2^(-1074)`. -/
theorem double_sub_ge (c d : ℚ) (hc : isDouble c) (hd : isDouble d) (h : c < d) :
    (2 : ℚ) ^ (-1074 : ℤ) ≤ d - c := by
  obtain ⟨kc, hkc⟩ := isDouble_multiple c hc
  obtain ⟨kd, hkd⟩ := isDouble_multiple d hd
  have hu : (0 : ℚ) < 2 ^ (-1074 : ℤ) := zpow_pos (by norm_num) _
  have hk : kc < kd := by
    by_contra hle
    have : (kd : ℚ) ≤ (kc : ℚ) := by exact_mod_cast not_lt.mp hle
    have := mul_le_mul_of_nonneg_right this hu.le
    rw [← hkc, ← hkd] at this
    linarith
  have hk1 : (1 : ℚ) ≤ (kd : ℚ) - (kc : ℚ) := by
    have : kc + 1 ≤ kd := hk
    have : ((kc + 1 : ℤ) : ℚ) ≤ (kd : ℚ) := by exact_mod_cast this
    push_cast at this
    linarith
  have := mul_le_mul_of_nonneg_right hk1 hu.le
  rw [hkc, hkd]
  linarith

/-- The quantum around a number of magnitude at least `2^(-1074)` is not above it. -/
theorem quantum_le_abs (q : ℚ) (h : (2 : ℚ) ^ (-1074 : ℤ) ≤ |q|) :
    (2 : ℚ) ^ quantumExp q ≤ |q| := by
  have hpos : 0 < |q| := lt_of_lt_of_le (zpow_pos (by norm_num) _) h
  have hlog : (-1074 : ℤ) ≤ Int.log 2 |q| :=
    (Int.zpow_le_iff_le_log (b := 2) (by norm_num) hpos).mp (by exact_mod_cast h)
  have hqe : quantumExp q ≤ Int.log 2 |q| := by
    unfold quantumExp
    exact max_le (by omega) hlog
  have h1 : (2 : ℚ) ^ quantumExp q ≤ 2 ^ Int.log 2 |q| :=
    zpow_le_zpow_right₀ (by norm_num) hqe
  have h2 : ((2 : ℕ) : ℚ) ^ Int.log 2 |q| ≤ |q| := Int.zpow_log_le_self (by norm_num) hpos
  exact h1.trans (by exact_mod_cast h2)

/-- A result of magnitude at least `2^(-1074)` does not round to zero. -/
theorem roundDouble_ne_zero (q : ℚ) (h : (2 : ℚ) ^ (-1074 : ℤ) ≤ |q|) :
    roundDouble q ≠ Dbl.fin 0 := by
  have hu : (0 : ℚ) < 2 ^ quantumExp q := zpow_pos (by norm_num) _
  have hle := quantum_le_abs q h
  unfold roundDouble
  split_ifs
  · exact fun hc => Dbl.noConfusion hc
  · exact fun hc => Dbl.noConfusion hc
  · intro hc
    have h0 : (roundHalfEven (q / 2 ^ quantumExp q) : ℚ) * 2 ^ quantumExp q = 0 :=
      Dbl.fin.inj hc
    have hm : (roundHalfEven (q / 2 ^ quantumExp q) : ℚ) = 0 := by
      rcases mul_eq_zero.mp h0 with hm | hm
      · exact hm
      · exact absurd hm (ne_of_gt hu)
    have hm' : roundHalfEven (q / 2 ^ quantumExp q) = 0 := by exact_mod_cast hm
    rcases le_or_lt 0 q with hq | hq
    · rw [abs_of_nonneg hq] at hle
      have := one_le_roundHalfEven (q / 2 ^ quantumExp q) ((one_le_div hu).mpr hle)
      omega
    · rw [abs_of_neg hq] at hle
      have hx : q / 2 ^ quantumExp q ≤ -1 := by
        rw [div_le_iff₀ hu]
        linarith
      have := roundHalfEven_le_neg_one _ hx
      omega

/-- The divisor of the edge test is never a zero: the binary64 difference of two distinct
doubles is not zero. -/
theorem Dbl.sub_ne_zero (y1 y2 : ℚ) (h1 : isDouble y1) (h2 : isDouble y2) (hne : y1 ≠ y2) :
    Dbl.sub (Dbl.fin y2) (Dbl.fin y1) ≠ Dbl.fin 0 := by
  have hgap : (2 : ℚ) ^ (-1074 : ℤ) ≤ |y2 - y1| := by
    rcases lt_or_gt_of_ne hne with h | h
    · rw [abs_of_pos (by linarith)]
      exact double_sub_ge y1 y2 h1 h2 h
    · rw [abs_of_neg (by linarith)]
      have := double_sub_ge y2 y1 h2 h1 h
      linarith
  simp only [Dbl.sub, Dbl.neg, Dbl.add, ← sub_eq_add_neg]
  exact roundDouble_ne_zero (y2 - y1) hgap

/-! ## The binary64 edge test on vertical edges, and axis-aligned rectangles -/

/-- On a vertical edge between doubles whose height does not overflow, the binary64 edge
test is exact: the computed intercept is the abscissa of the edge. -/
theorem edgeCrossedF_vertical (pt : Point) (x y1 y2 : ℚ) (hx : isDouble x)
    (hy1 : isDouble y1) (hy2 : isDouble y2) (hh : |y2 - y1| ≤ DBL_MAX) :
    edgeCrossedF pt ⟨x, y1⟩ ⟨x, y2⟩
      = ((decide (y1 > pt.y) != decide (y2 > pt.y)) && decide (pt.x < x)) := by
  by_cases hs : (decide (y1 > pt.y) != decide (y2 > pt.y)) = true
  · have hne : y1 ≠ y2 := by
      intro h
      rw [h] at hs
      simp at hs
    have hbetween : |pt.y - y1| ≤ |y2 - y1| := by
      simp only [gt_iff_lt, bne_iff_ne, ne_eq, decide_eq_decide] at hs
      by_cases h1 : pt.y < y1
      · have h2 : y2 ≤ pt.y := by
          by_contra hc
          exact hs ⟨fun _ => not_le.mp hc, fun _ => h1⟩
        rw [abs_of_neg (by linarith), abs_of_neg (by linarith)]
        linarith
      · have h2 : pt.y < y2 := by
          by_contra hc
          exact hs ⟨fun h => absurd h h1, fun h => absurd h hc⟩
        rw [abs_of_nonneg (by linarith [not_lt.mp h1]),
          abs_of_nonneg (by linarith [not_lt.mp h1])]
        linarith
    have hgap : (2 : ℚ) ^ (-1074 : ℤ) ≤ |y2 - y1| := by
      rcases lt_or_gt_of_ne hne with h | h
      · rw [abs_of_pos (by linarith)]
        exact double_sub_ge y1 y2 hy1 hy2 h
      · rw [abs_of_neg (by linarith)]
        have := double_sub_ge y2 y1 hy2 hy1 h
        linarith
    obtain ⟨r, hr⟩ := roundDouble_finite (pt.y - y1) (hbetween.trans hh)
    obtain ⟨s, hs'⟩ := roundDouble_finite (y2 - y1) hh
    have hs0 : s ≠ 0 := by
      intro h0
      rw [h0] at hs'
      exact roundDouble_ne_zero (y2 - y1) hgap hs'
    have t1 : Dbl.sub (Dbl.fin x) (Dbl.fin x) = Dbl.fin 0 := by
      simp only [Dbl.sub, Dbl.neg, Dbl.add, add_neg_cancel]
      exact roundDouble_zero
    have t2 : Dbl.sub (Dbl.fin pt.y) (Dbl.fin y1) = Dbl.fin r := by
      simp only [Dbl.sub, Dbl.neg, Dbl.add, ← sub_eq_add_neg]
      exact hr
    have t3 : Dbl.mul (Dbl.fin 0) (Dbl.fin r) = Dbl.fin 0 := by
      simp only [Dbl.mul, zero_mul]
      exact roundDouble_zero
    have t4 : Dbl.sub (Dbl.fin y2) (Dbl.fin y1) = Dbl.fin s := by
      simp only [Dbl.sub, Dbl.neg, Dbl.add, ← sub_eq_add_neg]
      exact hs'
    have t5 : Dbl.div (Dbl.fin 0) (Dbl.fin s) = Dbl.fin 0 := by
      simp only [Dbl.div, zero_div]
      rw [if_neg hs0]
      exact roundDouble_zero
    have t6 : Dbl.add (Dbl.fin 0) (Dbl.fin x) = Dbl.fin x := by
      simp only [Dbl.add, zero_add]
      exact hx
    simp only [edgeCrossedF, t1, t2, t3, t4, t5, t6, Dbl.lt]
  · have hf : (decide (y1 > pt.y) != decide (y2 > pt.y)) = false := Bool.eq_false_iff.mpr hs
    simp only [edgeCrossedF, hf, Bool.false_and]

/-- The loop of `pointinsidepolyF` on four vertices. -/
theorem pointinsidepolyF_quad (pt v0 v1 v2 v3 : Point) :
    pointinsidepolyF pt [v0, v1, v2, v3]
      = xor (xor (xor (edgeCrossedF pt v0 v3) (edgeCrossedF pt v1 v0)) (edgeCrossedF pt v2 v1))
          (edgeCrossedF pt v3 v2) := by
  simp only [pointinsidepolyF, List.length_cons, List.length_nil, List.range, List.range.loop,
    List.foldl_cons, List.foldl_nil, Nat.zero_add, Nat.reduceAdd, Nat.add_one_sub_one,
    List.getD_cons_zero, List.getD_cons_succ]
  cases edgeCrossedF pt v0 v3 <;> cases edgeCrossedF pt v1 v0 <;>
    cases edgeCrossedF pt v2 v1 <;> cases edgeCrossedF pt v3 v2 <;> rfl

/-- Ray-casting in binary64 arithmetic on the axis-aligned rectangle `(a,c),(b,c),(b,d),(a,d)`
with double coordinates, `a < b`, `c < d` and a height `d - c` that does not overflow: the
accepted points are those of the half-open box `[a,b) × [c,d)`. -/
theorem pointinsidepolyF_rectangle (a b c d : ℚ) (ha : isDouble a) (hb : isDouble b)
    (hc : isDouble c) (hd : isDouble d) (hab : a < b) (hcd : c < d) (hh : d - c ≤ DBL_MAX)
    (pt : Point) :
    pointinsidepolyF pt [⟨a, c⟩, ⟨b, c⟩, ⟨b, d⟩, ⟨a, d⟩] = true ↔
      (a ≤ pt.x ∧ pt.x < b ∧ c ≤ pt.y ∧ pt.y < d) := by
  have h1 : |d - c| ≤ DBL_MAX := by rw [abs_of_pos (by linarith)]; exact hh
  have h2 : |c - d| ≤ DBL_MAX := by rw [abs_of_neg (by linarith)]; linarith
  rw [pointinsidepolyF_quad, edgeCrossedF_vertical pt a c d ha hc hd h1,
    edgeCrossedF_same_height pt ⟨b, c⟩ ⟨a, c⟩ rfl,
    edgeCrossedF_vertical pt b d c hb hd hc h2,
    edgeCrossedF_same_height pt ⟨a, d⟩ ⟨b, d⟩ rfl]
  by_cases hy1 : pt.y < c
  · have hy2 : pt.y < d := by linarith
    have hy3 : ¬ c ≤ pt.y := by linarith
    simp [hy1, hy2, hy3]
  · by_cases hy2 : pt.y < d
    · have hy3 : c ≤ pt.y := not_lt.mp hy1
      by_cases hx1 : pt.x < a
      · have hx2 : pt.x < b := by linarith
        have hx3 : ¬ a ≤ pt.x := by linarith
        simp [hy1, hy2, hy3, hx1, hx2, hx3]
      · by_cases hx2 : pt.x < b
        · simp [hy1, hy2, hy3, hx1, hx2, not_lt.mp hx1]
        · simp [hy1, hy2, hy3, hx1, hx2]
    · simp [hy1, hy2]

theorem isDouble_zero : isDouble 0 := roundDouble_zero

theorem isDouble_one : isDouble 1 := roundDouble_one

theorem isDouble_half : isDouble (1 / 2) := by
  unfold isDouble
  rw [roundDouble_eval_pos (1 / 2) (-1) (-53) (2 ^ 52) (by decide) (by norm_num) (by norm_num)
    (by norm_num) (by norm_num) (by norm_num)]
  norm_num

theorem isDouble_four : isDouble 4 := by
  unfold isDouble
  rw [roundDouble_eval_pos 4 2 (-50) (2 ^ 52) (by decide) (by norm_num) (by norm_num)
    (by norm_num) (by norm_num) (by norm_num)]
  norm_num

theorem isDouble_two_pow_1023 : isDouble (2 ^ 1023) := by
  unfold isDouble
  rw [roundDouble_eval_pos (2 ^ 1023) 1023 971 (2 ^ 52) (by decide) (by norm_num) (by norm_num)
    (by norm_num) (by norm_num) (by norm_num)]
  norm_num

theorem isDouble_neg_two_pow_1023 : isDouble (-2 ^ 1023) := by
  unfold isDouble
  rw [roundDouble_eval_neg (2 ^ 1023) 1023 971 (-2 ^ 52) (by decide) (by norm_num)
    (by norm_num) (by norm_num) (by norm_num) (by norm_num)]
  norm_num

/-- In binary64 arithmetic the rectangle `(0,c),(1,c),(1,d),(0,d)` with `c = -2^1023` and
`d = 2^1023` does not contain the point `(1/2, c)` of its bottom edge: the height `d - c`
overflows and the right edge evaluates `0 * -inf`, a NaN. -/
theorem pointinsidepolyF_tall_rectangle :
    pointinsidepolyF ⟨1 / 2, -2 ^ 1023⟩
      [⟨0, -2 ^ 1023⟩, ⟨1, -2 ^ 1023⟩, ⟨1, 2 ^ 1023⟩, ⟨0, 2 ^ 1023⟩] = false := by
  have hup : Dbl.sub (Dbl.fin (2 ^ 1023)) (Dbl.fin (-2 ^ 1023)) = Dbl.pinf := by
    simp only [Dbl.sub, Dbl.neg, Dbl.add, roundDouble]
    rw [if_pos (by norm_num)]
  have hdown : Dbl.sub (Dbl.fin (-2 ^ 1023)) (Dbl.fin (2 ^ 1023)) = Dbl.ninf := by
    simp only [Dbl.sub, Dbl.neg, Dbl.add, roundDouble]
    rw [if_neg (by norm_num), if_pos (by norm_num)]
  have hself : ∀ q : ℚ, Dbl.sub (Dbl.fin q) (Dbl.fin q) = Dbl.fin 0 := by
    intro q
    simp only [Dbl.sub, Dbl.neg, Dbl.add, add_neg_cancel]
    exact roundDouble_zero
  have hmul : Dbl.mul (Dbl.fin 0) (Dbl.fin 0) = Dbl.fin 0 := by
    simp only [Dbl.mul, mul_zero]
    exact roundDouble_zero
  have hadd : Dbl.add (Dbl.fin 0) (Dbl.fin 0) = Dbl.fin 0 := by
    simp only [Dbl.add, add_zero]
    exact roundDouble_zero
  have e0 : edgeCrossedF ⟨1 / 2, -2 ^ 1023⟩ ⟨0, -2 ^ 1023⟩ ⟨0, 2 ^ 1023⟩ = false := by
    simp only [edgeCrossedF, hself, hmul, hup, Dbl.div, hadd, Dbl.lt]
    norm_num
  have e2 : edgeCrossedF ⟨1 / 2, -2 ^ 1023⟩ ⟨1, 2 ^ 1023⟩ ⟨1, -2 ^ 1023⟩ = false := by
    simp only [edgeCrossedF, hself, hdown, Dbl.mul, Dbl.div, Dbl.add, Dbl.lt, if_true,
      Bool.and_false]
  rw [pointinsidepolyF_quad, e0, e2, edgeCrossedF_same_height _ ⟨1, -2 ^ 1023⟩ ⟨0, -2 ^ 1023⟩ rfl,
    edgeCrossedF_same_height _ ⟨0, 2 ^ 1023⟩ ⟨1, 2 ^ 1023⟩ rfl]
  rfl

/-! ## Vertex minima and maxima of the L-shaped polygon -/

theorem lShape_minX : (∃ v ∈ lShape, v.x = 0) ∧ ∀ v ∈ lShape, (0 : ℚ) ≤ v.x := by
  refine ⟨⟨⟨0, 0⟩, by simp [lShape], rfl⟩, ?_⟩
  intro v hv
  simp only [lShape, List.mem_cons, List.mem_singleton, List.not_mem_nil, or_false] at hv
  rcases hv with rfl | rfl | rfl | rfl | rfl | rfl <;> norm_num

theorem lShape_maxX : (∃ v ∈ lShape, v.x = 4) ∧ ∀ v ∈ lShape, v.x ≤ (4 : ℚ) := by
  refine ⟨⟨⟨4, 0⟩, by simp [lShape], rfl⟩, ?_⟩
  intro v hv
  simp only [lShape, List.mem_cons, List.mem_singleton, List.not_mem_nil, or_false] at hv
  rcases hv with rfl | rfl | rfl | rfl | rfl | rfl <;> norm_num

theorem lShape_minY : (∃ v ∈ lShape, v.y = 0) ∧ ∀ v ∈ lShape, (0 : ℚ) ≤ v.y := by
  refine ⟨⟨⟨0, 0⟩, by simp [lShape], rfl⟩, ?_⟩
  intro v hv
  simp only [lShape, List.mem_cons, List.mem_singleton, List.not_mem_nil, or_false] at hv
  rcases hv with rfl | rfl | rfl | rfl | rfl | rfl <;> norm_num

theorem lShape_maxY : (∃ v ∈ lShape, v.y = 4) ∧ ∀ v ∈ lShape, v.y ≤ (4 : ℚ) := by
  refine ⟨⟨⟨2, 4⟩, by simp [lShape], rfl⟩, ?_⟩
  intro v hv
  simp only [lShape, List.mem_cons, List.mem_singleton, List.not_mem_nil, or_false] at hv
  rcases hv with rfl | rfl | rfl | rfl | rfl | rfl <;> norm_num

theorem lShape_in_range :
    ∀ v ∈ lShape, -DBL_MAX ≤ v.x ∧ v.x ≤ DBL_MAX ∧ -DBL_MAX ≤ v.y ∧ v.y ≤ DBL_MAX := by
  intro v hv
  simp only [lShape, List.mem_cons, List.mem_singleton, List.not_mem_nil, or_false] at hv
  rcases hv with rfl | rfl | rfl | rfl | rfl | rfl <;> norm_num [DBL_MAX]

theorem queryPoly_far_points :
    (RangeSearch.ctor [⟨5, 5⟩, ⟨6, 6⟩, ⟨7, 7⟩, ⟨8, 8⟩]).queryPoly triangle4 = [] := by
  rw [RangeSearch.queryPoly_eq_filter, RangeSearch.ctor_dataPts, RangeSearch.ctor_pointCount,
    List.filter_eq_nil_iff, calboundingbox_triangle4]
  intro i hi
  have hi' : i < 4 := List.mem_range.mp hi
  interval_cases i <;> norm_num [pointinsidebox]

/-! ## The claims -/

/-- C1 (exactness). For every dataset and every polygon, over exact arithmetic, `queryPoly`
returns the list computed by the brute-force reference: in ascending order, exactly the
indices whose point is accepted by the ray-casting test `pointinsidepoly`. The bounding-box
pre-filter neither drops an accepted point nor adds a rejected one. -/
theorem queryPoly_eq_bruteForce (D P : List Point) :
    (RangeSearch.ctor D).queryPoly P = bruteForce D P ∧
      ((RangeSearch.ctor D).queryPoly P).Pairwise (· < ·) ∧
      ∀ i : Nat, i ∈ (RangeSearch.ctor D).queryPoly P ↔
        (i < D.length ∧ pointinsidepoly (D.getD i default) P = true) := by
  have h : (RangeSearch.ctor D).queryPoly P = bruteForce D P := by
    rw [RangeSearch.queryPoly_eq_filter_poly, RangeSearch.ctor_dataPts,
      RangeSearch.ctor_pointCount]
    rfl
  refine ⟨h, ?_, ?_⟩
  · rw [h]
    exact List.Pairwise.filter _ (List.pairwise_lt_range _)
  · intro i
    rw [h]
    simp [bruteForce, List.mem_filter, List.mem_range]

/-- C2 (count consistency), evaluated where the code breaks it. On the dataset
`[(1,1),(3,3)]` and the L-shaped polygon `queryPoly` returns `[0]` (length 1), while
`queryPolyCount` returns 2 when the never-written `nnIdx[0]` holds 0, returns 0 when it
holds 1, and reads outside `dataPts` for every other value: for no value of `nnIdx[0]` does
`queryPolyCount` return the length of the list returned by `queryPoly`. -/
theorem queryPolyCount_ne_length_queryPoly :
    (RangeSearch.ctor [⟨1, 1⟩, ⟨3, 3⟩]).queryPoly lShape = [0] ∧
      (RangeSearch.ctor [⟨1, 1⟩, ⟨3, 3⟩]).queryPolyCount 0 lShape = some 2 ∧
      (RangeSearch.ctor [⟨1, 1⟩, ⟨3, 3⟩]).queryPolyCount 1 lShape = some 0 ∧
      ∀ k : Int, (RangeSearch.ctor [⟨1, 1⟩, ⟨3, 3⟩]).queryPolyCount k lShape
        ≠ some ((RangeSearch.ctor [⟨1, 1⟩, ⟨3, 3⟩]).queryPoly lShape).length := by
  refine ⟨queryPoly_lShape_two, ?_, ?_, ?_⟩
  · rw [queryPolyCount_lShape_two]; rfl
  · rw [queryPolyCount_lShape_two]; rfl
  · intro k
    rw [queryPolyCount_lShape_two, queryPoly_lShape_two]
    by_cases h0 : k = 0
    · simp [h0]
    · by_cases h1 : k = 1
      · simp [h1]
      · simp [h0, h1]

/-- C3. For every dataset of `N` points and every polygon, the list returned by `queryPoly`
is strictly ascending, hence free of duplicates, and every element `i` satisfies
`0 ≤ i < N`: each identifier is a valid position in the dataset. -/
theorem queryPoly_ascending_valid (D P : List Point) :
    ((RangeSearch.ctor D).queryPoly P).Pairwise (· < ·) ∧
      ((RangeSearch.ctor D).queryPoly P).Nodup ∧
      ∀ i ∈ (RangeSearch.ctor D).queryPoly P, 0 ≤ i ∧ i < D.length := by
  have hs : ((RangeSearch.ctor D).queryPoly P).Pairwise (· < ·) := by
    rw [RangeSearch.queryPoly_eq_filter]
    exact List.Pairwise.filter _ (List.pairwise_lt_range _)
  refine ⟨hs, hs.imp (fun h => Nat.ne_of_lt h), ?_⟩
  intro i hi
  rw [RangeSearch.queryPoly_eq_filter, List.mem_filter, List.mem_range] at hi
  exact ⟨Nat.zero_le i, hi.1⟩

/-- C4 (bounding-box pruning). For every dataset and every non-empty polygon, with `minX`,
`maxX`, `minY`, `maxY` the coordinate-wise minimum and maximum over the vertices (each is
attained by a vertex, so the polygon is non-empty), every index returned by `queryPoly` has
its point inside the inclusive box: `minX ≤ x ≤ maxX` and `minY ≤ y ≤ maxY`, that is, it
passes `pointinsidebox` on that box. -/
theorem queryPoly_within_boundingbox (D P : List Point) (minX maxX minY maxY : ℚ)
    (hminX : (∃ v ∈ P, v.x = minX) ∧ ∀ v ∈ P, minX ≤ v.x)
    (hmaxX : (∃ v ∈ P, v.x = maxX) ∧ ∀ v ∈ P, v.x ≤ maxX)
    (hminY : (∃ v ∈ P, v.y = minY) ∧ ∀ v ∈ P, minY ≤ v.y)
    (hmaxY : (∃ v ∈ P, v.y = maxY) ∧ ∀ v ∈ P, v.y ≤ maxY) :
    ∀ i ∈ (RangeSearch.ctor D).queryPoly P,
      (minX ≤ (D.getD i default).x ∧ (D.getD i default).x ≤ maxX ∧
        minY ≤ (D.getD i default).y ∧ (D.getD i default).y ≤ maxY) ∧
      pointinsidebox (D.getD i default) ⟨minX, minY⟩ ⟨maxX, maxY⟩ = true := by
  intro i hi
  rw [RangeSearch.queryPoly_eq_filter_poly, RangeSearch.ctor_dataPts, List.mem_filter] at hi
  obtain ⟨⟨a, ha, hax⟩, ⟨b, hb, hbx⟩, ⟨c, hc, hcy⟩, ⟨d, hd, hdy⟩⟩ :=
    pointinsidepoly_vertex_bounds _ P hi.2
  have hbounds : minX ≤ (D.getD i default).x ∧ (D.getD i default).x ≤ maxX ∧
      minY ≤ (D.getD i default).y ∧ (D.getD i default).y ≤ maxY :=
    ⟨(hminX.2 a ha).trans hax, hbx.le.trans (hmaxX.2 b hb),
      (hminY.2 c hc).trans hcy, hdy.le.trans (hmaxY.2 d hd)⟩
  exact ⟨hbounds, (pointinsidebox_iff _ _ _).mpr hbounds⟩

theorem queryPoly_within_boundingbox_witness :
    0 ∈ (RangeSearch.ctor [⟨1, 1⟩, ⟨3, 3⟩]).queryPoly lShape ∧
      ((0 ≤ (([⟨1, 1⟩, ⟨3, 3⟩] : List Point).getD 0 default).x ∧
        (([⟨1, 1⟩, ⟨3, 3⟩] : List Point).getD 0 default).x ≤ 4 ∧
        0 ≤ (([⟨1, 1⟩, ⟨3, 3⟩] : List Point).getD 0 default).y ∧
        (([⟨1, 1⟩, ⟨3, 3⟩] : List Point).getD 0 default).y ≤ 4) ∧
      pointinsidebox (([⟨1, 1⟩, ⟨3, 3⟩] : List Point).getD 0 default) ⟨0, 0⟩ ⟨4, 4⟩ = true) :=
  have hmem : 0 ∈ (RangeSearch.ctor [⟨1, 1⟩, ⟨3, 3⟩]).queryPoly lShape := by
    rw [queryPoly_lShape_two]
    exact List.mem_singleton.mpr rfl
  ⟨hmem, queryPoly_within_boundingbox [⟨1, 1⟩, ⟨3, 3⟩] lShape 0 4 0 4
    ⟨⟨⟨0, 0⟩, by simp [lShape], rfl⟩, by
      intro v hv
      simp only [lShape, List.mem_cons, List.mem_singleton, List.not_mem_nil, or_false] at hv
      rcases hv with rfl | rfl | rfl | rfl | rfl | rfl <;> norm_num⟩
    ⟨⟨⟨4, 0⟩, by simp [lShape], rfl⟩, by
      intro v hv
      simp only [lShape, List.mem_cons, List.mem_singleton, List.not_mem_nil, or_false] at hv
      rcases hv with rfl | rfl | rfl | rfl | rfl | rfl <;> norm_num⟩
    ⟨⟨⟨0, 0⟩, by simp [lShape], rfl⟩, by
      intro v hv
      simp only [lShape, List.mem_cons, List.mem_singleton, List.not_mem_nil, or_false] at hv
      rcases hv with rfl | rfl | rfl | rfl | rfl | rfl <;> norm_num⟩
    ⟨⟨⟨2, 4⟩, by simp [lShape], rfl⟩, by
      intro v hv
      simp only [lShape, List.mem_cons, List.mem_singleton, List.not_mem_nil, or_false] at hv
      rcases hv with rfl | rfl | rfl | rfl | rfl | rfl <;> norm_num⟩
    0 hmem⟩

/-- C5 (refinement is not skipped). For the L-shaped polygon and every dataset, an index whose
point lies in the concave notch (`2 < x ≤ 4` and `2 < y ≤ 4`) passes the bounding-box test
but does not appear in the result of `queryPoly`; and the dataset `[(1,1),(3,3)]` yields
`[0]`. -/
theorem queryPoly_lShape_excludes_notch :
    (∀ (D : List Point) (i : Nat),
      2 < (D.getD i default).x → (D.getD i default).x ≤ 4 →
      2 < (D.getD i default).y → (D.getD i default).y ≤ 4 →
        pointinsidebox (D.getD i default) (calboundingbox lShape).1 (calboundingbox lShape).2
            = true ∧
          i ∉ (RangeSearch.ctor D).queryPoly lShape) ∧
      (RangeSearch.ctor [⟨1, 1⟩, ⟨3, 3⟩]).queryPoly lShape = [0] := by
  refine ⟨?_, queryPoly_lShape_two⟩
  intro D i hx hx4 hy hy4
  constructor
  · rw [calboundingbox_lShape, pointinsidebox_iff]
    refine ⟨?_, hx4, ?_, hy4⟩
    · show (0 : ℚ) ≤ (D.getD i default).x
      linarith
    · show (0 : ℚ) ≤ (D.getD i default).y
      linarith
  · intro hi
    rw [RangeSearch.queryPoly_eq_filter_poly, RangeSearch.ctor_dataPts, List.mem_filter] at hi
    rw [pointinsidepoly_lShape_notch _ hx hy] at hi
    exact Bool.false_ne_true hi.2

theorem queryPoly_lShape_excludes_notch_witness :
    pointinsidebox (([⟨1, 1⟩, ⟨3, 3⟩] : List Point).getD 1 default) (calboundingbox lShape).1
        (calboundingbox lShape).2 = true ∧
      1 ∉ (RangeSearch.ctor [⟨1, 1⟩, ⟨3, 3⟩]).queryPoly lShape :=
  queryPoly_lShape_excludes_notch.1 [⟨1, 1⟩, ⟨3, 3⟩] 1
    (by norm_num) (by norm_num) (by norm_num) (by norm_num)

/-- C6 (concrete scenario 1). For the dataset `[(0,0),(5,5),(10,10),(2,2)]` and the polygon
`[(0,0),(4,0),(4,4),(0,4)]`, `queryPoly` returns exactly `[0,3]`, of length 2, and the
corner point `(0,0)` is reported as inside by the ray-casting test. -/
theorem queryPoly_scenario1 :
    (RangeSearch.ctor [⟨0, 0⟩, ⟨5, 5⟩, ⟨10, 10⟩, ⟨2, 2⟩]).queryPoly square4 = [0, 3] ∧
      ((RangeSearch.ctor [⟨0, 0⟩, ⟨5, 5⟩, ⟨10, 10⟩, ⟨2, 2⟩]).queryPoly square4).length = 2 ∧
      pointinsidepoly ⟨0, 0⟩ square4 = true := by
  have hrect := pointinsidepoly_rectangle 0 4 0 4 (by norm_num) (by norm_num)
  have h0 : pointinsidepoly ⟨0, 0⟩ square4 = true := (hrect ⟨0, 0⟩).mpr (by norm_num)
  have h2 : pointinsidepoly ⟨2, 2⟩ square4 = true := (hrect ⟨2, 2⟩).mpr (by norm_num)
  have h5 : pointinsidepoly ⟨5, 5⟩ square4 = false :=
    Bool.eq_false_iff.mpr (fun h => by have := (hrect ⟨5, 5⟩).mp h; norm_num at this)
  have h10 : pointinsidepoly ⟨10, 10⟩ square4 = false :=
    Bool.eq_false_iff.mpr (fun h => by have := (hrect ⟨10, 10⟩).mp h; norm_num at this)
  have h : (RangeSearch.ctor [⟨0, 0⟩, ⟨5, 5⟩, ⟨10, 10⟩, ⟨2, 2⟩]).queryPoly square4 = [0, 3] := by
    rw [RangeSearch.queryPoly_eq_filter_poly]
    simp [RangeSearch.ctor_dataPts, RangeSearch.ctor_pointCount, List.range, List.range.loop,
      List.filter, h0, h2, h5, h10]
  exact ⟨h, by rw [h]; rfl, h0⟩

/-- C7 (concrete scenario 2). For every dataset of `N` points all strictly inside the square
(`0 < x < 100` and `0 < y < 100`) and the polygon `[(0,0),(100,0),(100,100),(0,100)]`,
`queryPoly` returns all indices `[0, 1, ..., N-1]`, so the count equals `N`. -/
theorem queryPoly_scenario2 (D : List Point)
    (hD : ∀ p ∈ D, 0 < p.x ∧ p.x < 100 ∧ 0 < p.y ∧ p.y < 100) :
    (RangeSearch.ctor D).queryPoly square100 = List.range D.length ∧
      ((RangeSearch.ctor D).queryPoly square100).length = D.length := by
  have h : (RangeSearch.ctor D).queryPoly square100 = List.range D.length := by
    rw [RangeSearch.queryPoly_eq_filter_poly, RangeSearch.ctor_dataPts,
      RangeSearch.ctor_pointCount, List.filter_eq_self]
    intro i hi
    have hi' : i < D.length := List.mem_range.mp hi
    have hmem : D.getD i default ∈ D := by
      rw [List.getD_eq_getElem _ _ hi']
      exact List.getElem_mem _
    obtain ⟨h1, h2, h3, h4⟩ := hD _ hmem
    exact (pointinsidepoly_rectangle 0 100 0 100 (by norm_num) (by norm_num) _).mpr
      ⟨h1.le, h2, h3.le, h4⟩
  exact ⟨h, by rw [h, List.length_range]⟩

theorem queryPoly_scenario2_witness :
    (RangeSearch.ctor [⟨1, 1⟩, ⟨50, 99⟩, ⟨1 / 2, 7⟩]).queryPoly square100
        = List.range ([⟨1, 1⟩, ⟨50, 99⟩, ⟨1 / 2, 7⟩] : List Point).length ∧
      ((RangeSearch.ctor [⟨1, 1⟩, ⟨50, 99⟩, ⟨1 / 2, 7⟩]).queryPoly square100).length
        = ([⟨1, 1⟩, ⟨50, 99⟩, ⟨1 / 2, 7⟩] : List Point).length :=
  queryPoly_scenario2 [⟨1, 1⟩, ⟨50, 99⟩, ⟨1 / 2, 7⟩] (by
    intro p hp
    simp only [List.mem_cons, List.mem_singleton, List.not_mem_nil, or_false] at hp
    rcases hp with rfl | rfl | rfl <;> norm_num)

/-- C8 (empty-box boundary). For every dataset and every polygon such that no dataset point
passes the inclusive bounding-box test of the polygon (in particular for an empty dataset),
`queryPoly` returns the empty list and `queryPolyCount` returns 0, whatever the value of the
never-written `nnIdx[0]`. -/
theorem query_empty_box (D P : List Point)
    (h : ∀ i < D.length,
      pointinsidebox (D.getD i default) (calboundingbox P).1 (calboundingbox P).2 = false) :
    (RangeSearch.ctor D).queryPoly P = [] ∧
      ∀ nnIdx0 : Int, (RangeSearch.ctor D).queryPolyCount nnIdx0 P = some 0 := by
  have hbox : (List.range D.length).filter (fun i =>
      pointinsidebox (D.getD i default) (calboundingbox P).1 (calboundingbox P).2) = [] := by
    rw [List.filter_eq_nil_iff]
    intro i hi
    rw [h i (List.mem_range.mp hi)]
    exact Bool.false_ne_true
  constructor
  · rw [RangeSearch.queryPoly_eq_filter, RangeSearch.ctor_dataPts,
      RangeSearch.ctor_pointCount, List.filter_eq_nil_iff]
    intro i hi
    rw [h i (List.mem_range.mp hi), Bool.false_and]
    exact Bool.false_ne_true
  · intro nnIdx0
    rw [RangeSearch.queryPolyCount_eq, RangeSearch.ctor_dataPts, RangeSearch.ctor_pointCount,
      if_pos hbox]

theorem query_empty_box_witness :
    (RangeSearch.ctor [⟨5, 5⟩, ⟨-1, 2⟩]).queryPoly triangle4 = [] ∧
      (RangeSearch.ctor [⟨5, 5⟩, ⟨-1, 2⟩]).queryPolyCount 7 triangle4 = some 0 ∧
      (RangeSearch.ctor [⟨5, 5⟩, ⟨-1, 2⟩]).queryPolyCount 1 triangle4 = some 0 :=
  have h := query_empty_box [⟨5, 5⟩, ⟨-1, 2⟩] triangle4 (by
    intro i hi
    rw [calboundingbox_triangle4]
    have hi' : i < 2 := hi
    interval_cases i <;> norm_num [pointinsidebox])
  ⟨h.1, h.2 7, h.2 1⟩

/-- C9, refuted as stated. The polygon `[(0,0),(2,2)]` has two vertices, yet on the engine
built from `[(1,1)]` the call of `queryPoly` returns normally with the empty list, and the
call of `queryPolyCount` (with `nnIdx[0] = 0`) returns normally with 0: neither call ends
with an error. -/
theorem short_polygon_not_rejected :
    ([⟨0, 0⟩, ⟨2, 2⟩] : List Point).length < 3 ∧
      ((RangeSearch.ctor [⟨1, 1⟩]).callQueryPoly [⟨0, 0⟩, ⟨2, 2⟩]).1 = Outcome.returned [] ∧
      ((RangeSearch.ctor [⟨1, 1⟩]).callQueryPoly [⟨0, 0⟩, ⟨2, 2⟩]).1 ≠ Outcome.thrown ∧
      (RangeSearch.ctor [⟨1, 1⟩]).callQueryPolyCount 0 [⟨0, 0⟩, ⟨2, 2⟩]
        = some (Outcome.returned 0, RangeSearch.ctor [⟨1, 1⟩]) := by
  have hp : ∀ pt : Point, pointinsidepoly pt [⟨0, 0⟩, ⟨2, 2⟩] = false :=
    fun pt => pointinsidepoly_short pt _ (by simp)
  have hq : (RangeSearch.ctor [⟨1, 1⟩]).queryPoly [⟨0, 0⟩, ⟨2, 2⟩] = [] := by
    rw [RangeSearch.queryPoly_eq_filter_poly, List.filter_eq_nil_iff]
    intro i _
    rw [hp]
    exact Bool.false_ne_true
  refine ⟨by simp, ?_, ?_, ?_⟩
  · rw [RangeSearch.callQueryPoly_eq, hq]
  · rw [RangeSearch.callQueryPoly_eq, hq]
    exact fun h => Outcome.noConfusion h
  · have hc : (RangeSearch.ctor [⟨1, 1⟩]).queryPolyCount 0 [⟨0, 0⟩, ⟨2, 2⟩] = some 0 := by
      rw [RangeSearch.queryPolyCount_eq, hp]
      simp [RangeSearch.ctor_pointCount]
    rw [RangeSearch.callQueryPolyCount_eq, hc]
    rfl

/-- C9, amended. For every engine and every polygon with fewer than 3 vertices, neither
query rejects the polygon: a call of `queryPoly` returns normally with a list, a call of
`queryPolyCount` returns normally with a count whenever the never-written `nnIdx[0]` holds a
valid dataset index, and whenever a query returns the engine (dataset and point count) is
unchanged, so a later query gives the same outcome as on the original engine. No error is
raised. This holds whatever the polygon test `inside` computes, in exact or in binary64
arithmetic. -/
theorem short_polygon_returns_normally (inside : Point → List Point → Bool)
    (self : RangeSearch) (P : List Point) (_hP : P.length < 3) :
    (∃ l : List Nat, (self.callQueryPolyWith inside P).1 = Outcome.returned l) ∧
      (self.callQueryPolyWith inside P).2 = self ∧
      (∀ nnIdx0 : Int, 0 ≤ nnIdx0 → nnIdx0 < (self.pointCount : Int) →
        ∃ n : Nat, self.callQueryPolyCountWith inside nnIdx0 P
          = some (Outcome.returned n, self)) ∧
      (∀ (nnIdx0 : Int) (r : Outcome Nat × RangeSearch),
        self.callQueryPolyCountWith inside nnIdx0 P = some r →
          (∃ n : Nat, r.1 = Outcome.returned n) ∧ r.2 = self) ∧
      ∀ Q : List Point, (self.callQueryPolyWith inside P).2.callQueryPolyWith inside Q
        = self.callQueryPolyWith inside Q := by
  have h2 : (self.callQueryPolyWith inside P).2 = self := by
    rw [RangeSearch.callQueryPolyWith_eq]
  refine ⟨⟨_, by rw [RangeSearch.callQueryPolyWith_eq]⟩, h2, ?_, ?_, ?_⟩
  · intro nnIdx0 h0 h1
    obtain ⟨n, hn⟩ := foldl_countStep_valid inside self.dataPts self.pointCount
      (calboundingbox P).1 (calboundingbox P).2 nnIdx0 P ⟨h0, h1⟩ (List.range self.pointCount) 0
    exact ⟨n, by rw [RangeSearch.callQueryPolyCountWith_eq, hn]; rfl⟩
  · intro nnIdx0 r hr
    rw [RangeSearch.callQueryPolyCountWith_eq, Option.map_eq_some'] at hr
    obtain ⟨c, _, hc⟩ := hr
    rw [← hc]
    exact ⟨⟨c, rfl⟩, rfl⟩
  · intro Q
    rw [h2]

theorem short_polygon_returns_normally_witness :
    (∃ l : List Nat, ((RangeSearch.ctor [⟨1, 1⟩]).callQueryPolyWith pointinsidepolyF
        [⟨0, 0⟩, ⟨2, 2⟩]).1 = Outcome.returned l) ∧
      ((RangeSearch.ctor [⟨1, 1⟩]).callQueryPolyWith pointinsidepolyF [⟨0, 0⟩, ⟨2, 2⟩]).2
        = RangeSearch.ctor [⟨1, 1⟩] ∧
      (∃ n : Nat, (RangeSearch.ctor [⟨1, 1⟩]).callQueryPolyCountWith pointinsidepolyF 0
        [⟨0, 0⟩, ⟨2, 2⟩] = some (Outcome.returned n, RangeSearch.ctor [⟨1, 1⟩])) ∧
      ((RangeSearch.ctor [⟨1, 1⟩]).callQueryPolyWith pointinsidepolyF
          [⟨0, 0⟩, ⟨2, 2⟩]).2.callQueryPolyWith pointinsidepolyF square4
        = (RangeSearch.ctor [⟨1, 1⟩]).callQueryPolyWith pointinsidepolyF square4 :=
  have h := short_polygon_returns_normally pointinsidepolyF (RangeSearch.ctor [⟨1, 1⟩])
    [⟨0, 0⟩, ⟨2, 2⟩] (by decide)
  ⟨h.1, h.2.1, h.2.2.1 0 (le_refl 0) (by decide), h.2.2.2.2 square4⟩

/-- C10 (ray-casting definition). For every point `p` and polygon `P` with vertices
`v_0 .. v_{m-1}`, `pointinsidepoly p P` is true exactly when the number of indices `i` (with
`j = i - 1`, and `j = m - 1` for `i = 0`) whose edge is crossed is odd; the flag starts
`false` and is flipped once per such edge. -/
theorem pointinsidepoly_iff_odd_crossings (p : Point) (P : List Point) :
    (pointinsidepoly p P = true ↔ Odd (crossingIndices p P).length) ∧
      pointinsidepoly p P = (crossingIndices p P).foldl (fun inside _ => !inside) false := by
  have h := pointinsidepoly_eq_crossing_fold p P
  refine ⟨?_, h⟩
  rw [h, foldl_flip]
  by_cases ho : Odd (crossingIndices p P).length
  · simp [ho]
  · simp [ho]

/-- C11 (winding direction is irrelevant). For every point and every polygon, over exact
arithmetic, `pointinsidepoly` gives the same answer on the polygon and on the polygon with
its vertex order reversed; hence `queryPoly` returns the same list for both. -/
theorem pointinsidepoly_winding_irrelevant (p : Point) (P : List Point) :
    pointinsidepoly p P.reverse = pointinsidepoly p P ∧
      ∀ self : RangeSearch, self.queryPoly P.reverse = self.queryPoly P := by
  refine ⟨pointinsidepoly_reverse p P, ?_⟩
  intro self
  rw [RangeSearch.queryPoly_eq_filter_poly, RangeSearch.queryPoly_eq_filter_poly]
  apply List.filter_congr
  intro i _
  exact pointinsidepoly_reverse _ P

/-- C12 (bounding box). For every non-empty polygon whose coordinates lie within
`[-DBL_MAX, DBL_MAX]`, `calboundingbox` returns the coordinate-wise minimum and maximum over
the vertices: each of the four bounds is the coordinate of some vertex, and every vertex `v`
satisfies `minPt.x ≤ v.x ≤ maxPt.x` and `minPt.y ≤ v.y ≤ maxPt.y`. -/
theorem calboundingbox_min_max (P : List Point) (hne : P ≠ [])
    (hr : ∀ v ∈ P, -DBL_MAX ≤ v.x ∧ v.x ≤ DBL_MAX ∧ -DBL_MAX ≤ v.y ∧ v.y ≤ DBL_MAX) :
    ((∃ v ∈ P, v.x = (calboundingbox P).1.x) ∧ (∃ v ∈ P, v.x = (calboundingbox P).2.x) ∧
        (∃ v ∈ P, v.y = (calboundingbox P).1.y) ∧ (∃ v ∈ P, v.y = (calboundingbox P).2.y)) ∧
      ∀ v ∈ P, (calboundingbox P).1.x ≤ v.x ∧ v.x ≤ (calboundingbox P).2.x ∧
        (calboundingbox P).1.y ≤ v.y ∧ v.y ≤ (calboundingbox P).2.y :=
  ⟨calboundingbox_attained P hne hr, fun v hv => calboundingbox_contains P v hv⟩

theorem calboundingbox_min_max_witness :
    ((∃ v ∈ lShape, v.x = (calboundingbox lShape).1.x) ∧
        (∃ v ∈ lShape, v.x = (calboundingbox lShape).2.x) ∧
        (∃ v ∈ lShape, v.y = (calboundingbox lShape).1.y) ∧
        (∃ v ∈ lShape, v.y = (calboundingbox lShape).2.y)) ∧
      ((calboundingbox lShape).1.x ≤ (4 : ℚ) ∧ (4 : ℚ) ≤ (calboundingbox lShape).2.x ∧
        (calboundingbox lShape).1.y ≤ (2 : ℚ) ∧ (2 : ℚ) ≤ (calboundingbox lShape).2.y) :=
  have h := calboundingbox_min_max lShape (by simp [lShape]) lShape_in_range
  ⟨h.1, h.2 ⟨4, 2⟩ (by simp [lShape])⟩

/-- C13 (determinism). A call of `queryPoly` leaves the engine (dataset and point count)
unchanged, and so does a call of `queryPolyCount` that returns; hence the outcome of
`queryPoly(P)` is the same whether it is the first call, a repeated call, or a call made
after `queryPoly(Q)` or `queryPolyCount(Q)`. The returned list is a function of the dataset,
the point count and the polygon only: engines that agree on these return the same list.
This holds whatever the polygon test `inside` computes, in exact or in binary64
arithmetic. -/
theorem queryPoly_deterministic (inside : Point → List Point → Bool) (self : RangeSearch)
    (P Q : List Point) :
    (self.callQueryPolyWith inside P).2 = self ∧
      (self.callQueryPolyWith inside P).2.callQueryPolyWith inside P
        = self.callQueryPolyWith inside P ∧
      (self.callQueryPolyWith inside Q).2.callQueryPolyWith inside P
        = self.callQueryPolyWith inside P ∧
      (∀ (nnIdx0 : Int) (r : Outcome Nat × RangeSearch),
        self.callQueryPolyCountWith inside nnIdx0 Q = some r →
          r.2 = self ∧ r.2.callQueryPolyWith inside P = self.callQueryPolyWith inside P) ∧
      ∀ other : RangeSearch, other.dataPts = self.dataPts →
        other.pointCount = self.pointCount →
          (other.callQueryPolyWith inside P).1 = (self.callQueryPolyWith inside P).1 := by
  have hP : (self.callQueryPolyWith inside P).2 = self := by
    rw [RangeSearch.callQueryPolyWith_eq]
  have hQ : (self.callQueryPolyWith inside Q).2 = self := by
    rw [RangeSearch.callQueryPolyWith_eq]
  refine ⟨hP, by rw [hP], by rw [hQ], ?_, ?_⟩
  · intro nnIdx0 r hr
    rw [RangeSearch.callQueryPolyCountWith_eq, Option.map_eq_some'] at hr
    obtain ⟨c, _, hc⟩ := hr
    have h2 : r.2 = self := by rw [← hc]
    exact ⟨h2, by rw [h2]⟩
  · intro other hd hc
    rw [RangeSearch.callQueryPolyWith_eq, RangeSearch.callQueryPolyWith_eq, hd, hc]

theorem queryPoly_deterministic_witness :
    ((RangeSearch.ctor [⟨1, 1⟩, ⟨3, 3⟩]).callQueryPolyWith pointinsidepoly lShape).2
        = RangeSearch.ctor [⟨1, 1⟩, ⟨3, 3⟩] ∧
      ((RangeSearch.ctor [⟨1, 1⟩, ⟨3, 3⟩]).callQueryPolyWith pointinsidepoly
          square4).2.callQueryPolyWith pointinsidepoly lShape
        = (RangeSearch.ctor [⟨1, 1⟩, ⟨3, 3⟩]).callQueryPolyWith pointinsidepoly lShape ∧
      (RangeSearch.ctor [⟨1, 1⟩, ⟨3, 3⟩]).callQueryPoly lShape
        = (Outcome.returned [0], RangeSearch.ctor [⟨1, 1⟩, ⟨3, 3⟩]) ∧
      ((Outcome.returned 2, RangeSearch.ctor [⟨1, 1⟩, ⟨3, 3⟩]) :
          Outcome Nat × RangeSearch).2.callQueryPolyWith pointinsidepoly lShape
        = (RangeSearch.ctor [⟨1, 1⟩, ⟨3, 3⟩]).callQueryPolyWith pointinsidepoly lShape ∧
      (({ dataPts := [⟨1, 1⟩, ⟨3, 3⟩], kdTree := [], pointCount := 2 } :
          RangeSearch).callQueryPolyWith pointinsidepoly lShape).1
        = ((RangeSearch.ctor [⟨1, 1⟩, ⟨3, 3⟩]).callQueryPolyWith pointinsidepoly lShape).1 :=
  have h := queryPoly_deterministic pointinsidepoly (RangeSearch.ctor [⟨1, 1⟩, ⟨3, 3⟩])
    lShape square4
  have h' := queryPoly_deterministic pointinsidepoly (RangeSearch.ctor [⟨1, 1⟩, ⟨3, 3⟩])
    lShape lShape
  have hc : (RangeSearch.ctor [⟨1, 1⟩, ⟨3, 3⟩]).callQueryPolyCountWith pointinsidepoly 0
      lShape = some (Outcome.returned 2, RangeSearch.ctor [⟨1, 1⟩, ⟨3, 3⟩]) := by
    have h1 := RangeSearch.callQueryPolyCount_eq (RangeSearch.ctor [⟨1, 1⟩, ⟨3, 3⟩]) 0 lShape
    rw [RangeSearch.callQueryPolyCount] at h1
    rw [h1, queryPolyCount_lShape_two]
    rfl
  ⟨h.1, h.2.2.1, by rw [RangeSearch.callQueryPoly_eq, queryPoly_lShape_two],
    (h'.2.2.2.1 0 _ hc).2,
    h.2.2.2.2 { dataPts := [⟨1, 1⟩, ⟨3, 3⟩], kdTree := [], pointCount := 2 }
      (RangeSearch.ctor_dataPts _).symm rfl⟩

/-- C14, refuted as stated. With ANN library calls that accept zero points, constructing an
engine from the empty list ends normally with an engine, on which `queryPoly` then returns
the empty list: the constructor raises no error. -/
theorem construct_empty_not_rejected :
    RangeSearch.construct (fun _ => Outcome.returned ()) []
        = Outcome.returned (RangeSearch.ctor []) ∧
      RangeSearch.construct (fun _ => Outcome.returned ()) [] ≠ Outcome.thrown ∧
      (RangeSearch.ctor []).queryPoly square4 = [] :=
  ⟨rfl, fun h => Outcome.noConfusion h, rfl⟩

/-- C14, amended. The constructor has no emptiness check: constructing an engine from the
empty list fails only if the ANN library calls fail. Whenever they return, the constructor
yields an engine with no data points and point count 0, on which `queryPoly` returns the
empty list and `queryPolyCount` returns 0 for every polygon. -/
theorem construct_empty_returns (ann : Nat → Outcome Unit)
    (h : ann 0 = Outcome.returned ()) :
    RangeSearch.construct ann [] = Outcome.returned (RangeSearch.ctor []) ∧
      (RangeSearch.ctor []).dataPts = [] ∧ (RangeSearch.ctor []).pointCount = 0 ∧
      ∀ P : List Point, (RangeSearch.ctor []).queryPoly P = [] ∧
        ∀ nnIdx0 : Int, (RangeSearch.ctor []).queryPolyCount nnIdx0 P = some 0 := by
  refine ⟨?_, rfl, rfl, fun P => ⟨queryPoly_no_points P, fun k => queryPolyCount_no_points k P⟩⟩
  simp only [RangeSearch.construct, List.length_nil, h]

theorem construct_empty_returns_witness :
    RangeSearch.construct (fun _ => Outcome.returned ()) []
        = Outcome.returned (RangeSearch.ctor []) ∧
      (RangeSearch.ctor []).dataPts = [] ∧ (RangeSearch.ctor []).pointCount = 0 ∧
      (RangeSearch.ctor []).queryPoly triangle4 = [] ∧
      (RangeSearch.ctor []).queryPolyCount 3 triangle4 = some 0 :=
  have h := construct_empty_returns (fun _ => Outcome.returned ()) rfl
  ⟨h.1, h.2.1, h.2.2.1, (h.2.2.2 triangle4).1, (h.2.2.2 triangle4).2 3⟩

/-- C15 (performance contract), evaluated where the code breaks it. For every engine and
polygon the loop of `queryPoly` reads every dataset point `0 .. pointCount - 1`, and its
result does not depend on the kd-tree. On the four points `(5,5),(6,6),(7,7),(8,8)` and the
triangle `(0,0),(4,0),(0,4)` no point lies in the bounding box (`k = 0`), yet all four points
are visited. -/
theorem queryPoly_visits_every_point :
    (∀ (self : RangeSearch) (P : List Point),
      (self.queryPolyVisited P).1 = self.queryPoly P ∧
        (self.queryPolyVisited P).2 = List.range self.pointCount ∧
        ((self.queryPolyVisited P).2).length = self.pointCount ∧
        ∀ t : List Point,
          ({ self with kdTree := t } : RangeSearch).queryPoly P = self.queryPoly P) ∧
      (RangeSearch.ctor [⟨5, 5⟩, ⟨6, 6⟩, ⟨7, 7⟩, ⟨8, 8⟩]).queryPolyVisited triangle4
        = ([], [0, 1, 2, 3]) ∧
      (List.range 4).filter (fun i =>
        pointinsidebox (([⟨5, 5⟩, ⟨6, 6⟩, ⟨7, 7⟩, ⟨8, 8⟩] : List Point).getD i default)
          (calboundingbox triangle4).1 (calboundingbox triangle4).2) = [] := by
  refine ⟨?_, ?_, ?_⟩
  · intro self P
    rw [RangeSearch.queryPolyVisited_eq]
    exact ⟨rfl, rfl, List.length_range _, fun t => RangeSearch.queryPoly_kdTree_irrelevant self t P⟩
  · rw [RangeSearch.queryPolyVisited_eq, queryPoly_far_points]
    rfl
  · rw [List.filter_eq_nil_iff, calboundingbox_triangle4]
    intro i hi
    have hi' : i < 4 := List.mem_range.mp hi
    interval_cases i <;> norm_num [pointinsidebox]

/-- C16 (the count-only path always inspects the same candidate). For every dataset, every
polygon and every value `k` of the never-written `nnIdx[0]` that is a valid dataset index,
`queryPolyCount` returns the number of dataset points passing the inclusive bounding-box test
if `pointinsidepoly(D[k], P)` is true, and 0 otherwise. -/
theorem queryPolyCount_same_candidate (D P : List Point) (k : Int)
    (h0 : 0 ≤ k) (h1 : k < (D.length : Int)) :
    (RangeSearch.ctor D).queryPolyCount k P
      = some (if pointinsidepoly (D.getD k.toNat default) P then
          ((List.range D.length).filter (fun i =>
            pointinsidebox (D.getD i default) (calboundingbox P).1
              (calboundingbox P).2)).length
        else 0) := by
  have hk : 0 ≤ k ∧ k < (D.length : Int) := ⟨h0, h1⟩
  rw [RangeSearch.queryPolyCount_eq, RangeSearch.ctor_dataPts, RangeSearch.ctor_pointCount]
  by_cases he : (List.range D.length).filter (fun i =>
      pointinsidebox (D.getD i default) (calboundingbox P).1 (calboundingbox P).2) = []
  · rw [if_pos he, he]
    simp
  · rw [if_neg he, if_pos hk]
    by_cases hp : pointinsidepoly (D.getD k.toNat default) P = true
    · rw [if_pos hp, if_pos hp]
    · rw [if_neg hp, if_neg hp]

theorem queryPolyCount_same_candidate_witness :
    (RangeSearch.ctor [⟨1, 1⟩, ⟨3, 3⟩]).queryPolyCount 1 lShape
      = some (if pointinsidepoly (([⟨1, 1⟩, ⟨3, 3⟩] : List Point).getD (1 : Int).toNat default)
            lShape then
          ((List.range ([⟨1, 1⟩, ⟨3, 3⟩] : List Point).length).filter (fun i =>
            pointinsidebox (([⟨1, 1⟩, ⟨3, 3⟩] : List Point).getD i default)
              (calboundingbox lShape).1 (calboundingbox lShape).2)).length
        else 0) :=
  queryPolyCount_same_candidate [⟨1, 1⟩, ⟨3, 3⟩] lShape 1 (by decide) (by decide)

/-- C17 (acceptance implies half-open bounding-box membership). For every point and every
polygon, over exact arithmetic, if `pointinsidepoly` is true then `minX ≤ p.x < maxX` and
`minY ≤ p.y < maxY`, where the bounds are the coordinate-wise minimum and maximum over the
vertices; in particular the point passes the box test on the box of `calboundingbox`. -/
theorem pointinsidepoly_half_open_box (p : Point) (P : List Point)
    (minX maxX minY maxY : ℚ)
    (hminX : (∃ v ∈ P, v.x = minX) ∧ ∀ v ∈ P, minX ≤ v.x)
    (hmaxX : (∃ v ∈ P, v.x = maxX) ∧ ∀ v ∈ P, v.x ≤ maxX)
    (hminY : (∃ v ∈ P, v.y = minY) ∧ ∀ v ∈ P, minY ≤ v.y)
    (hmaxY : (∃ v ∈ P, v.y = maxY) ∧ ∀ v ∈ P, v.y ≤ maxY)
    (h : pointinsidepoly p P = true) :
    (minX ≤ p.x ∧ p.x < maxX ∧ minY ≤ p.y ∧ p.y < maxY) ∧
      pointinsidebox p (calboundingbox P).1 (calboundingbox P).2 = true := by
  obtain ⟨⟨a, ha, hax⟩, ⟨b, hb, hbx⟩, ⟨c, hc, hcy⟩, ⟨d, hd, hdy⟩⟩ :=
    pointinsidepoly_vertex_bounds p P h
  exact ⟨⟨(hminX.2 a ha).trans hax, lt_of_lt_of_le hbx (hmaxX.2 b hb),
    (hminY.2 c hc).trans hcy, lt_of_lt_of_le hdy (hmaxY.2 d hd)⟩,
    pointinsidebox_of_pointinsidepoly p P h⟩

theorem pointinsidepoly_half_open_box_witness :
    ((0 : ℚ) ≤ (⟨1, 1⟩ : Point).x ∧ (⟨1, 1⟩ : Point).x < 4 ∧
        (0 : ℚ) ≤ (⟨1, 1⟩ : Point).y ∧ (⟨1, 1⟩ : Point).y < 4) ∧
      pointinsidebox ⟨1, 1⟩ (calboundingbox lShape).1 (calboundingbox lShape).2 = true :=
  pointinsidepoly_half_open_box ⟨1, 1⟩ lShape 0 4 0 4 lShape_minX lShape_maxX lShape_minY
    lShape_maxY pointinsidepoly_lShape_inner

/-- C18 (division safety). For every point and every polygon, the loop of `pointinsidepoly`
with its hazards made explicit returns normally with the value of `pointinsidepoly` after
entering its body once per vertex: every index `i`, `j` it uses lies in `0 .. m - 1` and
whenever the quotient is evaluated its divisor is non-zero, because the straddle condition
forces `polygon[i].y ≠ polygon[j].y`. For an empty polygon the body is never entered. -/
theorem pointinsidepoly_division_safe (p : Point) (P : List Point) :
    pointinsidepolyChecked p P = some (pointinsidepoly p P, P.length) ∧
      (∀ vi vj : Point, edgeCrossedChecked p vi vj = some (edgeCrossed p vi vj)) ∧
      (∀ vi vj : Point, (decide (vi.y > p.y) != decide (vj.y > p.y)) = true →
        vj.y - vi.y ≠ 0) ∧
      pointinsidepolyChecked p [] = some (false, 0) := by
  refine ⟨pointinsidepolyChecked_eq p P, fun vi vj => edgeCrossedChecked_eq p vi vj, ?_, rfl⟩
  intro vi vj hs h0
  have h : vj.y = vi.y := sub_eq_zero.mp h0
  rw [h] at hs
  simp at hs

theorem pointinsidepoly_division_safe_witness :
    pointinsidepolyChecked ⟨1, 1⟩ lShape = some (pointinsidepoly ⟨1, 1⟩ lShape, lShape.length) ∧
      edgeCrossedChecked ⟨1, 1⟩ ⟨4, 2⟩ ⟨4, 0⟩ = some (edgeCrossed ⟨1, 1⟩ ⟨4, 2⟩ ⟨4, 0⟩) ∧
      (⟨4, 0⟩ : Point).y - (⟨4, 2⟩ : Point).y ≠ 0 ∧
      pointinsidepolyChecked ⟨1, 1⟩ [] = some (false, 0) :=
  have h := pointinsidepoly_division_safe ⟨1, 1⟩ lShape
  ⟨h.1, h.2.1 ⟨4, 2⟩ ⟨4, 0⟩, h.2.2.1 ⟨4, 2⟩ ⟨4, 0⟩ (by norm_num), h.2.2.2⟩

/-- C19, refuted as stated. The rectangle `(0,c),(1,c),(1,d),(0,d)` with `c = -2^1023` and
`d = 2^1023` has double coordinates with `0 < 1` and `c < d`, and the point `(1/2, c)` of its
bottom edge satisfies `0 ≤ x < 1` and `c ≤ y < d`; yet in binary64 arithmetic
`pointinsidepoly` rejects it: `d - c` overflows and the right edge evaluates `0 * -inf`. -/
theorem rectangle_overflow_rejects_bottom_edge :
    (isDouble 0 ∧ isDouble 1 ∧ isDouble (-2 ^ 1023) ∧ isDouble (2 ^ 1023) ∧
        isDouble (1 / 2)) ∧
      ((0 : ℚ) < 1 ∧ (-2 ^ 1023 : ℚ) < 2 ^ 1023) ∧
      ((0 : ℚ) ≤ (⟨1 / 2, -2 ^ 1023⟩ : Point).x ∧ (⟨1 / 2, -2 ^ 1023⟩ : Point).x < 1 ∧
        (-2 ^ 1023 : ℚ) ≤ (⟨1 / 2, -2 ^ 1023⟩ : Point).y ∧
        (⟨1 / 2, -2 ^ 1023⟩ : Point).y < 2 ^ 1023) ∧
      pointinsidepolyF ⟨1 / 2, -2 ^ 1023⟩
        [⟨0, -2 ^ 1023⟩, ⟨1, -2 ^ 1023⟩, ⟨1, 2 ^ 1023⟩, ⟨0, 2 ^ 1023⟩] = false := by
  refine ⟨⟨isDouble_zero, isDouble_one, isDouble_neg_two_pow_1023, isDouble_two_pow_1023,
    isDouble_half⟩, ⟨by norm_num, by norm_num⟩, ⟨?_, ?_, ?_, ?_⟩,
    pointinsidepolyF_tall_rectangle⟩
  · norm_num
  · norm_num
  · norm_num
  · norm_num

/-- C19, amended. In binary64 arithmetic the boundary policy on axis-aligned rectangles is
half-open as long as the height does not overflow: for all doubles `a < b` and `c < d` with
`d - c ≤ DBL_MAX` and every point `p`, `pointinsidepoly` on `[(a,c),(b,c),(b,d),(a,d)]` is
true if and only if `a ≤ p.x < b` and `c ≤ p.y < d`; points on the left and bottom edges are
inside, points on the right and top edges are outside. The answer is then the one of exact
arithmetic. -/
theorem pointinsidepolyF_rectangle_half_open (a b c d : ℚ) (ha : isDouble a)
    (hb : isDouble b) (hc : isDouble c) (hd : isDouble d) (hab : a < b) (hcd : c < d)
    (hh : d - c ≤ DBL_MAX) (p : Point) :
    (pointinsidepolyF p [⟨a, c⟩, ⟨b, c⟩, ⟨b, d⟩, ⟨a, d⟩] = true ↔
        (a ≤ p.x ∧ p.x < b ∧ c ≤ p.y ∧ p.y < d)) ∧
      (p.x = a → c ≤ p.y → p.y < d →
        pointinsidepolyF p [⟨a, c⟩, ⟨b, c⟩, ⟨b, d⟩, ⟨a, d⟩] = true) ∧
      (p.y = c → a ≤ p.x → p.x < b →
        pointinsidepolyF p [⟨a, c⟩, ⟨b, c⟩, ⟨b, d⟩, ⟨a, d⟩] = true) ∧
      (p.x = b → pointinsidepolyF p [⟨a, c⟩, ⟨b, c⟩, ⟨b, d⟩, ⟨a, d⟩] = false) ∧
      (p.y = d → pointinsidepolyF p [⟨a, c⟩, ⟨b, c⟩, ⟨b, d⟩, ⟨a, d⟩] = false) ∧
      pointinsidepolyF p [⟨a, c⟩, ⟨b, c⟩, ⟨b, d⟩, ⟨a, d⟩]
        = pointinsidepoly p [⟨a, c⟩, ⟨b, c⟩, ⟨b, d⟩, ⟨a, d⟩] := by
  have h := pointinsidepolyF_rectangle a b c d ha hb hc hd hab hcd hh p
  have hx := pointinsidepoly_rectangle a b c d hab hcd p
  refine ⟨h, ?_, ?_, ?_, ?_, ?_⟩
  · intro hx h1 h2
    exact h.mpr ⟨le_of_eq hx.symm, by rw [hx]; exact hab, h1, h2⟩
  · intro hy h1 h2
    exact h.mpr ⟨h1, h2, le_of_eq hy.symm, by rw [hy]; exact hcd⟩
  · intro hx
    rw [Bool.eq_false_iff]
    intro hp
    have := (h.mp hp).2.1
    rw [hx] at this
    exact lt_irrefl b this
  · intro hy
    rw [Bool.eq_false_iff]
    intro hp
    have := (h.mp hp).2.2.2
    rw [hy] at this
    exact lt_irrefl d this
  · rw [Bool.eq_iff_iff, h, hx]

theorem pointinsidepolyF_rectangle_half_open_witness :
    (pointinsidepolyF ⟨0, 3⟩ [⟨0, 0⟩, ⟨4, 0⟩, ⟨4, 4⟩, ⟨0, 4⟩] = true ↔
        ((0 : ℚ) ≤ (⟨0, 3⟩ : Point).x ∧ (⟨0, 3⟩ : Point).x < 4 ∧
          (0 : ℚ) ≤ (⟨0, 3⟩ : Point).y ∧ (⟨0, 3⟩ : Point).y < 4)) ∧
      pointinsidepolyF ⟨0, 3⟩ [⟨0, 0⟩, ⟨4, 0⟩, ⟨4, 4⟩, ⟨0, 4⟩] = true ∧
      pointinsidepolyF ⟨4, 3⟩ [⟨0, 0⟩, ⟨4, 0⟩, ⟨4, 4⟩, ⟨0, 4⟩] = false ∧
      pointinsidepolyF ⟨3, 4⟩ [⟨0, 0⟩, ⟨4, 0⟩, ⟨4, 4⟩, ⟨0, 4⟩] = false :=
  have h4 : (4 : ℚ) - 0 ≤ DBL_MAX := by norm_num [DBL_MAX]
  ⟨(pointinsidepolyF_rectangle_half_open 0 4 0 4 isDouble_zero isDouble_four isDouble_zero
      isDouble_four (by norm_num) (by norm_num) h4 ⟨0, 3⟩).1,
    (pointinsidepolyF_rectangle_half_open 0 4 0 4 isDouble_zero isDouble_four isDouble_zero
      isDouble_four (by norm_num) (by norm_num) h4 ⟨0, 3⟩).2.1 rfl (by norm_num) (by norm_num),
    (pointinsidepolyF_rectangle_half_open 0 4 0 4 isDouble_zero isDouble_four isDouble_zero
      isDouble_four (by norm_num) (by norm_num) h4 ⟨4, 3⟩).2.2.2.1 rfl,
    (pointinsidepolyF_rectangle_half_open 0 4 0 4 isDouble_zero isDouble_four isDouble_zero
      isDouble_four (by norm_num) (by norm_num) h4 ⟨3, 4⟩).2.2.2.2.1 rfl⟩

/-- C20, refuted as stated. The polygon `(0,0),(1,3)` has two vertices and the point whose
coordinates are the doubles nearest to `1/3` and `1` lies on its single edge; in binary64
arithmetic the edge test gives intercept `0.3333333333333333` in one direction and
`0.33333333333333337` in the other, the flag is flipped once, `pointinsidepoly` is true and
`queryPoly` returns `[0]` on the dataset made of that point. -/
theorem two_vertex_polygon_contains_point :
    ([⟨0, 0⟩, ⟨1, 3⟩] : List Point).length < 3 ∧
      (isDouble (6004799503160661 / 2 ^ 54) ∧ isDouble 0 ∧ isDouble 1 ∧ isDouble 3) ∧
      pointinsidepolyF ⟨6004799503160661 / 2 ^ 54, 1⟩ [⟨0, 0⟩, ⟨1, 3⟩] = true ∧
      ((RangeSearch.ctor [⟨6004799503160661 / 2 ^ 54, 1⟩]).callQueryPolyWith pointinsidepolyF
        [⟨0, 0⟩, ⟨1, 3⟩]).1 = Outcome.returned [0] := by
  refine ⟨by decide, ⟨roundDouble_third_exact, isDouble_zero, isDouble_one, roundDouble_three⟩,
    pointinsidepolyF_pair_true, ?_⟩
  have hbb : calboundingbox [⟨0, 0⟩, ⟨1, 3⟩] = (⟨0, 0⟩, ⟨1, 3⟩) := by
    norm_num [calboundingbox, BoxAcc.step, DBL_MAX, min_def, max_def]
  rw [RangeSearch.callQueryPolyWith_eq, RangeSearch.ctor_dataPts, RangeSearch.ctor_pointCount,
    hbb]
  have hbox : pointinsidebox ⟨6004799503160661 / 2 ^ 54, 1⟩ ⟨0, 0⟩ ⟨1, 3⟩ = true := by
    norm_num [pointinsidebox]
  simp [List.range, List.range.loop, List.filter, hbox, pointinsidepolyF_pair_true]

/-- C20, amended. Polygons with fewer than 2 vertices contain nothing, in binary64 as in
exact arithmetic: for every point and every polygon with 0 or 1 vertices `pointinsidepoly`
is false, so for every engine `queryPoly` returns the empty list as a normal result. With 2
vertices the single edge is visited twice, once in each direction, and `pointinsidepoly` is
the exclusive-or of the two edge tests: over exact arithmetic the two tests agree, so
`pointinsidepoly` is false and `queryPoly` returns the empty list. -/
theorem short_polygon_contains_nothing (p : Point) (P : List Point) (h : P.length < 3) :
    (P.length < 2 →
        pointinsidepolyF p P = false ∧
          ∀ self : RangeSearch,
            (self.callQueryPolyWith pointinsidepolyF P).1 = Outcome.returned []) ∧
      (∀ a b : Point, P = [a, b] →
        pointinsidepolyF p P = xor (edgeCrossedF p a b) (edgeCrossedF p b a)) ∧
      (pointinsidepoly p P = false ∧
        (∀ a b : Point, edgeCrossed p a b = edgeCrossed p b a) ∧
        ∀ self : RangeSearch, self.queryPoly P = [] ∧
          (self.callQueryPoly P).1 = Outcome.returned []) := by
  refine ⟨?_, ?_, ?_⟩
  · intro h2
    refine ⟨pointinsidepolyF_short p P h2, ?_⟩
    intro self
    rw [RangeSearch.callQueryPolyWith_eq]
    have hf : (List.range self.pointCount).filter (fun i =>
        pointinsidebox (self.dataPts.getD i default) (calboundingbox P).1
            (calboundingbox P).2 &&
          pointinsidepolyF (self.dataPts.getD i default) P) = [] := by
      rw [List.filter_eq_nil_iff]
      intro i _
      rw [pointinsidepolyF_short _ P h2, Bool.and_false]
      exact Bool.false_ne_true
    rw [hf]
  · intro a b hab
    rw [hab]
    exact pointinsidepolyF_pair p a b
  · have hq : ∀ self : RangeSearch, self.queryPoly P = [] := by
      intro self
      rw [RangeSearch.queryPoly_eq_filter_poly, List.filter_eq_nil_iff]
      intro i _
      rw [pointinsidepoly_short _ P h]
      exact Bool.false_ne_true
    refine ⟨pointinsidepoly_short p P h, fun a b => edgeCrossed_comm p a b, ?_⟩
    intro self
    exact ⟨hq self, by rw [RangeSearch.callQueryPoly_eq, hq self]⟩

theorem short_polygon_contains_nothing_witness :
    (pointinsidepolyF ⟨1, 1⟩ [⟨5, 5⟩] = false ∧
        ((RangeSearch.ctor [⟨1, 1⟩, ⟨3, 3⟩]).callQueryPolyWith pointinsidepolyF [⟨5, 5⟩]).1
          = Outcome.returned []) ∧
      pointinsidepolyF ⟨1, 1⟩ [⟨0, 0⟩, ⟨2, 2⟩]
        = xor (edgeCrossedF ⟨1, 1⟩ ⟨0, 0⟩ ⟨2, 2⟩) (edgeCrossedF ⟨1, 1⟩ ⟨2, 2⟩ ⟨0, 0⟩) ∧
      pointinsidepoly ⟨1, 1⟩ [⟨0, 0⟩, ⟨2, 2⟩] = false ∧
      (RangeSearch.ctor [⟨1, 1⟩, ⟨3, 3⟩]).queryPoly [⟨0, 0⟩, ⟨2, 2⟩] = [] ∧
      ((RangeSearch.ctor [⟨1, 1⟩, ⟨3, 3⟩]).callQueryPoly [⟨0, 0⟩, ⟨2, 2⟩]).1
        = Outcome.returned [] :=
  have h1 := short_polygon_contains_nothing ⟨1, 1⟩ [⟨5, 5⟩] (by decide)
  have h2 := short_polygon_contains_nothing ⟨1, 1⟩ [⟨0, 0⟩, ⟨2, 2⟩] (by decide)
  ⟨⟨(h1.1 (by decide)).1, (h1.1 (by decide)).2 (RangeSearch.ctor [⟨1, 1⟩, ⟨3, 3⟩])⟩,
    h2.2.1 ⟨0, 0⟩ ⟨2, 2⟩ rfl, h2.2.2.1,
    (h2.2.2.2.2 (RangeSearch.ctor [⟨1, 1⟩, ⟨3, 3⟩])).1,
    (h2.2.2.2.2 (RangeSearch.ctor [⟨1, 1⟩, ⟨3, 3⟩])).2⟩
